import Mathlib

/-!
# FolderLM overlay core: a shallow embedding with verified properties

This file embeds the core state and algorithms of the FolderLM browser
overlay (Entity Detector / `noteDetector`, View State Engine /
`filterManager`, Recovery Supervisor / `domRecoveryManager`) as executable
Lean definitions, translated from the JavaScript sources, and proves
properties of the embedded operations.

Modelling conventions:
* JavaScript `Map` objects are association lists with `Map.set` replacing
  the previous entry for the key (`aSet`), `Map.get` as first-match lookup
  (`aGet`) and `Map.delete` as key removal (`aDel`).
* DOM nodes are identified by natural-number labels; only the attributes
  and class flags the embedded code reads or writes are carried.
* `Array.prototype.sort` with a comparator is embedded as a stable
  insertion sort (`sortLe`) over the comparator's non-strict order; since
  the engine's sort is stable (ES2019), the two agree extensionally.
* `Infinity` sentinels (`getOriginalIndex`, missing folder orders) are
  `WithTop Nat` with `⊤` for `Infinity`.
* String constants (view modes, class names, statuses, notification
  types) keep their source spelling.
-/

namespace FolderLM

/-! ## Association-list embedding of JavaScript `Map` -/

/-- `Map.prototype.get`: value of the entry with the key, if any. -/
def aGet {κ ν : Type} [DecidableEq κ] : List (κ × ν) → κ → Option ν
  | [], _ => none
  | (k, v) :: rest, key => if k = key then some v else aGet rest key

/-- `Map.prototype.delete`: remove the entry with the key. -/
def aDel {κ ν : Type} [DecidableEq κ] : List (κ × ν) → κ → List (κ × ν)
  | [], _ => []
  | (k, v) :: rest, key =>
    if k = key then aDel rest key else (k, v) :: aDel rest key

/-- `Map.prototype.set`: bind the key to the value, replacing any previous
binding of the same key. -/
def aSet {κ ν : Type} [DecidableEq κ] (m : List (κ × ν)) (k : κ) (v : ν) :
    List (κ × ν) :=
  (k, v) :: aDel m k

/-! ## Stable sort embedding of `Array.prototype.sort` -/

/-- Insert `x` into `l` before the first element `y` with `le x y`. -/
def insertLe {α : Type} (le : α → α → Bool) (x : α) : List α → List α
  | [] => [x]
  | y :: ys => if le x y then x :: y :: ys else y :: insertLe le x ys

/-- Stable insertion sort by the non-strict comparison `le`.  Elements
comparing equal keep their input order, as ES2019 `Array.prototype.sort`
guarantees. -/
def sortLe {α : Type} (le : α → α → Bool) : List α → List α
  | [] => []
  | x :: xs => insertLe le x (sortLe le xs)

/-! ## View State Engine: mode state and group-mode fallback
(`src/content/core/filterManager.js`) -/

/-- `VIEW_MODES` from `selectors.js`: the valid view modes. -/
def VIEW_MODES : List String := ["filter", "sort", "group"]

/-- The slice of `FilterManager` state driving mode switching and the
group-mode fallback policy.  `storageViewModeWrites` records the
arguments of external persistence calls, `pendingViewModeApply` records
that a batched `_performApplyViewMode` was scheduled, and
`notifications` records the `type` fields passed to `_notifyChange`. -/
structure FilterManagerState where
  viewMode : String
  groupModeFailureCount : Nat
  storageViewModeWrites : List String
  pendingViewModeApply : Bool
  notifications : List String
deriving DecidableEq

/-- `this._groupModeFailureThreshold`. -/
def groupModeFailureThreshold : Nat := 3

/-- `FilterManager._groupByFolderWithFallback`.  The parameter
`verifyFails` abstracts the verification outcome of this pass: `true`
when `_groupByFolder` threw or grouped cards are present with zero group
headers.  On success the failure counter resets; on failure it is
incremented and, once it reaches the threshold, a `viewmode_fallback`
notification is emitted.  (In every failure branch the engine re-renders
as sort for this pass; the DOM work is not part of this state slice.
Note the source never writes `this._viewMode` here.) -/
def groupByFolderWithFallback (verifyFails : Bool) (s : FilterManagerState) :
    FilterManagerState :=
  if verifyFails then
    let s1 := { s with groupModeFailureCount := s.groupModeFailureCount + 1 }
    if groupModeFailureThreshold ≤ s1.groupModeFailureCount then
      { s1 with notifications := s1.notifications ++ ["viewmode_fallback"] }
    else
      s1
  else
    { s with groupModeFailureCount := 0 }

/-- `FilterManager.setViewMode`.  Returns the boolean result together
with the updated state.  An invalid mode returns `false` and changes
nothing; the current mode returns `true` and changes nothing; otherwise
the mode is stored, persisted externally, a batched apply is scheduled
and a `viewmode_changed` notification is emitted. -/
def setViewMode (mode : String) (s : FilterManagerState) :
    Bool × FilterManagerState :=
  if !(VIEW_MODES.contains mode) then
    (false, s)
  else if s.viewMode = mode then
    (true, s)
  else
    (true, { s with
      viewMode := mode,
      storageViewModeWrites := s.storageViewModeWrites ++ [mode],
      pendingViewModeApply := true,
      notifications := s.notifications ++ ["viewmode_changed"] })

/-- Initial state for exercising the group-mode fallback: Group mode,
zero accumulated failures, no pending work, no notifications. -/
def groupModeStart : FilterManagerState :=
  { viewMode := "group"
    groupModeFailureCount := 0
    storageViewModeWrites := []
    pendingViewModeApply := false
    notifications := [] }

/-! ## Recovery Supervisor (`domRecoveryManager`) -/

/-- The slice of `DOMRecoveryManager` state relevant to visibility
handling.  `recState` is the `RecoveryState` string; `pendingRecovery`
records a pending debounced `_performRecovery`; `checksRun` counts
executed `_checkRecoveryNeeded` calls; `recoveryRuns` counts executions
of the registered recovery callbacks. -/
structure RecoveryManagerState where
  isVisible : Bool
  recState : String
  pendingRecovery : Bool
  checksRun : Nat
  recoveryRuns : Nat
deriving DecidableEq

/-- `DOMRecoveryManager._checkAndRecover`.  `needsRecovery` abstracts the
result `_checkRecoveryNeeded` would return; the counter is bumped only
when the check actually executes (i.e. not while hidden). -/
def checkAndRecover (needsRecovery : Bool) (s : RecoveryManagerState) :
    RecoveryManagerState :=
  if !s.isVisible then
    s
  else
    let s1 := { s with checksRun := s.checksRun + 1 }
    if needsRecovery then { s1 with pendingRecovery := true } else s1

/-- `DOMRecoveryManager._performRecovery`: skipped while already
recovering and while the tab is hidden; otherwise runs the registered
callbacks and returns to the `active` state. -/
def performRecovery (s : RecoveryManagerState) : RecoveryManagerState :=
  if s.recState = "recovering" then
    s
  else if !s.isVisible then
    s
  else
    { s with recState := "active", recoveryRuns := s.recoveryRuns + 1 }

/-- The debounced `_performRecovery` timer firing: runs the recovery only
when a request is pending, consuming the pending flag. -/
def debounceFire (s : RecoveryManagerState) : RecoveryManagerState :=
  if s.pendingRecovery then
    performRecovery { s with pendingRecovery := false }
  else
    s

/-- `DOMRecoveryManager._onTabVisible`: leave `paused`, then check and
recover. -/
def onTabVisible (needsRecovery : Bool) (s : RecoveryManagerState) :
    RecoveryManagerState :=
  let s1 := if s.recState = "paused" then { s with recState := "active" } else s
  checkAndRecover needsRecovery s1

/-- `DOMRecoveryManager._onTabHidden`. -/
def onTabHidden (s : RecoveryManagerState) : RecoveryManagerState :=
  { s with recState := "paused" }

/-- The `visibilitychange` handler installed by
`_setupVisibilityListener`. -/
def handleVisibilityChange (newVisible needsRecovery : Bool)
    (s : RecoveryManagerState) : RecoveryManagerState :=
  let wasVisible := s.isVisible
  let s1 := { s with isVisible := newVisible }
  if !wasVisible && newVisible then onTabVisible needsRecovery s1
  else if wasVisible && !newVisible then onTabHidden s1
  else s1

/-- The asynchronous triggers that can reach the Recovery Supervisor. -/
inductive RMEvent
  | visibility (newVisible : Bool)
  | focusGained
  | debounceTimer
  | requestRecovery
  | recoverNow
deriving DecidableEq

/-- One step of the Recovery Supervisor: dispatch an inbound event.
`needsRecovery` is the environment's answer to `_checkRecoveryNeeded`
should it be consulted during this step. -/
def rmStep (e : RMEvent) (needsRecovery : Bool) (s : RecoveryManagerState) :
    RecoveryManagerState :=
  match e with
  | .visibility v => handleVisibilityChange v needsRecovery s
  | .focusGained => checkAndRecover needsRecovery s
  | .debounceTimer => debounceFire s
  | .requestRecovery => { s with pendingRecovery := true }
  | .recoverNow => performRecovery { s with pendingRecovery := false }

/-! ## Entity Detector (`noteDetector`) -/

/-- The DOM attributes written by the detector on a card node:
`data-folderlm-note-id` and `data-folderlm-initialized`. -/
structure CardAttrs where
  noteIdAttr : Option String
  initializedAttr : Bool
deriving DecidableEq

/-- Attributes of a card the detector has never touched. -/
def defaultAttrs : CardAttrs := { noteIdAttr := none, initializedAttr := false }

/-- The detector's state: `noteMap` (note id → card node), `elementMap`
(card node → note id), the attribute store of the card nodes, and the
set of cards whose id extraction failed. -/
structure DetectorState where
  noteMap : List (String × Nat)
  elementMap : List (Nat × String)
  attrs : List (Nat × CardAttrs)
  failedCards : List Nat
deriving DecidableEq

/-- Read a card's detector-owned attributes. -/
def attrsOf (s : DetectorState) (card : Nat) : CardAttrs :=
  (aGet s.attrs card).getD defaultAttrs

/-- `NoteDetector._registerNote`: if the id is already bound to a
different card, the old card is evicted (its reverse-map entry deleted
and its marker attributes removed) before the new card is bound and
marked.  Binding the same card again is a no-op. -/
def registerNote (noteId : String) (card : Nat) (s : DetectorState) :
    DetectorState :=
  match aGet s.noteMap noteId with
  | some existingCard =>
    if existingCard = card then
      s
    else
      let s1 := { s with
        elementMap := aDel s.elementMap existingCard,
        attrs := aSet s.attrs existingCard defaultAttrs }
      { s1 with
        noteMap := aSet s1.noteMap noteId card,
        elementMap := aSet s1.elementMap card noteId,
        attrs := aSet s1.attrs card
          { noteIdAttr := some noteId, initializedAttr := true },
        failedCards := s1.failedCards.filter (fun c => !(decide (c = card))) }
  | none =>
      { s with
        noteMap := aSet s.noteMap noteId card,
        elementMap := aSet s.elementMap card noteId,
        attrs := aSet s.attrs card
          { noteIdAttr := some noteId, initializedAttr := true },
        failedCards := s.failedCards.filter (fun c => !(decide (c = card))) }

/-- `NoteDetector._unregisterNote`. -/
def unregisterNote (noteId : String) (s : DetectorState) : DetectorState :=
  let s1 :=
    match aGet s.noteMap noteId with
    | some card =>
      { s with
        elementMap := aDel s.elementMap card,
        attrs := aSet s.attrs card defaultAttrs }
    | none => s
  { s1 with noteMap := aDel s1.noteMap noteId }

/-- A candidate card as the detector sees it in one pass: `cardId` is the
structural container `_resolveCardElement` binds to, `extracted` is the
result of `_extractNoteId(card, { preferDom: true })` (`none` when no
strategy yields a valid UUID). -/
structure HostCard where
  cardId : Nat
  extracted : Option String
deriving DecidableEq

/-- The candidate ids a tree resolves to, in document order. -/
def extractedIds (tree : List HostCard) : List String :=
  tree.filterMap (·.extracted)

/-- The per-card loop of `NoteDetector._performScan`, threading the
`identified` / `failed` counters and the new failed-card set. -/
def scanLoop : List HostCard → DetectorState → Nat → Nat → List Nat →
    DetectorState × Nat × Nat × List Nat
  | [], s, identified, failedCount, newFailed =>
    (s, identified, failedCount, newFailed)
  | c :: rest, s, identified, failedCount, newFailed =>
    match c.extracted with
    | some nid =>
      scanLoop rest (registerNote nid c.cardId s) (identified + 1)
        failedCount newFailed
    | none =>
      scanLoop rest s identified (failedCount + 1) (newFailed ++ [c.cardId])

/-- A detection result (`NoteDetector._createDetectionResult` payload). -/
structure DetectionResult where
  status : String
  total : Nat
  identified : Nat
  failed : Nat
deriving DecidableEq

/-- `NoteDetector._createDetectionResult`: classify a pass by its
counts. -/
def createDetectionResult (total identified failed : Nat) : DetectionResult :=
  { status :=
      if total = 0 then "no_notes"
      else if identified = 0 then "failed"
      else if 0 < failed then "partial"
      else "success"
    total := total
    identified := identified
    failed := failed }

/-- Outcome of a scan: the result, the new detector state, and whether a
`detection_failed` error was delivered to the error listeners. -/
structure ScanOutcome where
  result : DetectionResult
  state : DetectorState
  errorNotified : Bool
deriving DecidableEq

/-- `NoteDetector._performScan`: clear `noteMap`, process every candidate
card, store the new failed set, classify, and report a `failed` status
through the error listeners (never by throwing). -/
def performScan (tree : List HostCard) (s : DetectorState) : ScanOutcome :=
  let s0 := { s with noteMap := [] }
  let step := scanLoop tree s0 0 0 []
  let s1 := step.1
  let identified := step.2.1
  let failedCount := step.2.2.1
  let newFailed := step.2.2.2
  let s2 := { s1 with failedCards := newFailed }
  let result := createDetectionResult tree.length identified failedCount
  { result := result
    state := s2
    errorNotified := decide (result.status = "failed") }

/-- The first loop of `NoteDetector.detectChanges`: walk the current
cards, register newly appearing ids (collecting `added`) and refresh the
binding of known ids whose card changed; accumulate `currentIds`. -/
def detectLoop (previousIds : List String) :
    List HostCard → List String → List String → DetectorState →
    List String × List String × DetectorState
  | [], currentIds, added, s => (currentIds, added, s)
  | c :: rest, currentIds, added, s =>
    match c.extracted with
    | none => detectLoop previousIds rest currentIds added s
    | some nid =>
      let currentIds1 := currentIds ++ [nid]
      if nid ∈ previousIds then
        if aGet s.noteMap nid ≠ some c.cardId then
          detectLoop previousIds rest currentIds1 added
            (registerNote nid c.cardId s)
        else
          detectLoop previousIds rest currentIds1 added s
      else
        detectLoop previousIds rest currentIds1 (added ++ [nid])
          (registerNote nid c.cardId s)

/-- The second loop of `NoteDetector.detectChanges`: unregister every
previously known id that did not reappear, collecting `removed`. -/
def removeLoop (currentIds : List String) :
    List String → List String → DetectorState → List String × DetectorState
  | [], removed, s => (removed, s)
  | nid :: rest, removed, s =>
    if nid ∈ currentIds then
      removeLoop currentIds rest removed s
    else
      removeLoop currentIds rest (removed ++ [nid]) (unregisterNote nid s)

/-- Outcome of `detectChanges`: the `{ added, removed }` diff and the new
detector state. -/
structure DiffOutcome where
  added : List String
  removed : List String
  state : DetectorState
deriving DecidableEq

/-- `NoteDetector.detectChanges`. -/
def detectChanges (tree : List HostCard) (s : DetectorState) : DiffOutcome :=
  let previousIds := s.noteMap.map (·.1)
  let step := detectLoop previousIds tree [] [] s
  let currentIds := step.1
  let added := step.2.1
  let s1 := step.2.2
  let step2 := removeLoop currentIds previousIds [] s1
  { added := added, removed := step2.1, state := step2.2 }

/-! ## View State Engine: sort-order computation
(`FilterManager._calculateSortOrder`) -/

/-- `UNCATEGORIZED_FOLDER_ID` from `storageManager.js`: the fixed default
category id. -/
def UNCATEGORIZED_FOLDER_ID : String := "__uncategorized__"

/-- A stored folder (category), as `storageManager.getFolders` returns
them: id, display name, persisted `order` field, default flag. -/
structure Folder where
  id : String
  name : String
  order : Nat
  isDefault : Bool
deriving DecidableEq

/-- A visible note entering the sort computation: its id and the value of
its `data-folderlm-original-index` attribute (`none` when the attribute
is absent or unparsable, which `getOriginalIndex` maps to `Infinity`). -/
structure VisibleNote where
  noteId : String
  originalIndexAttr : Option Nat
deriving DecidableEq

/-- `FilterManager.getOriginalIndex`: the recorded original index, or
`Infinity` (`⊤`) when missing. -/
def getOriginalIndex (n : VisibleNote) : WithTop Nat :=
  match n.originalIndexAttr with
  | some i => (i : WithTop Nat)
  | none => ⊤

/-- The `folderOrderMap` built in `_calculateSortOrder`:
`folders.forEach((folder, index) => map.set(folder.id, index))`. -/
def folderOrderMap (folders : List Folder) : List (String × Nat) :=
  (folders.enum).foldl (fun m p => aSet m p.2.id p.1) []

/-- The `uncategorizedOrder` fallback:
`folderOrderMap.get(UNCATEGORIZED_ID) ?? Infinity`. -/
def uncategorizedOrder (folders : List Folder) : WithTop Nat :=
  match aGet (folderOrderMap folders) UNCATEGORIZED_FOLDER_ID with
  | some n => (n : WithTop Nat)
  | none => ⊤

/-- The folder a note is treated as belonging to:
`storageManager.getNoteFolder(noteId) || UNCATEGORIZED_ID`. -/
def noteFolderId (assign : String → Option String) (noteId : String) : String :=
  (assign noteId).getD UNCATEGORIZED_FOLDER_ID

/-- The sort precedence of a folder id:
`folderOrderMap.get(folderId) ?? uncategorizedOrder`. -/
def folderOrderOfId (folders : List Folder) (folderId : String) : WithTop Nat :=
  match aGet (folderOrderMap folders) folderId with
  | some k => (k : WithTop Nat)
  | none => uncategorizedOrder folders

/-- A note augmented with its sort information, as `_calculateSortOrder`
builds (`notesWithSortInfo`). -/
structure SortedNote where
  note : VisibleNote
  folderId : String
  folderOrder : WithTop Nat
  originalIndex : WithTop Nat
deriving DecidableEq

/-- Attach `folderId`, `folderOrder` and `originalIndex` to a note. -/
def attachSortInfo (folders : List Folder) (assign : String → Option String)
    (n : VisibleNote) : SortedNote :=
  { note := n
    folderId := noteFolderId assign n.noteId
    folderOrder := folderOrderOfId folders (noteFolderId assign n.noteId)
    originalIndex := getOriginalIndex n }

/-- The sort comparator of `_calculateSortOrder` as a non-strict order:
compare by `folderOrder` first, breaking ties by `originalIndex`. -/
def sortCmpLe (a b : SortedNote) : Bool :=
  if a.folderOrder ≠ b.folderOrder then decide (a.folderOrder < b.folderOrder)
  else decide (a.originalIndex ≤ b.originalIndex)

/-- `FilterManager._calculateSortOrder`: attach sort info to every
visible note and stable-sort by (folder order, original index). -/
def calculateSortOrder (folders : List Folder)
    (assign : String → Option String) (notes : List VisibleNote) :
    List SortedNote :=
  sortLe sortCmpLe (notes.map (attachSortInfo folders assign))

/-! ## View State Engine: filter application
(`FilterManager._performFilter`, `matchesFilter`,
`_isHiddenByNotebookLM`) -/

/-- The host-owned hidden class names `_isHiddenByNotebookLM` checks. -/
def hiddenClassNames : List String := ["hidden", "ng-hide", "mat-hidden"]

/-- `FOLDERLM_CLASSES.HIDDEN`: the overlay's own hidden marker class. -/
def HIDDEN_CLASS : String := "folderlm-hidden"

/-- A known note's card as the filter pass sees it: the note id it is
bound to, the host-controlled visibility signals, and its class list. -/
structure FilterCard where
  noteId : String
  displayNone : Bool
  computedVisibilityHidden : Bool
  classes : List String
deriving DecidableEq

/-- `FilterManager._isHiddenByNotebookLM`: inline `display: none`, one of
the host hidden classes, or computed `visibility: hidden`. -/
def isHiddenByNotebookLM (c : FilterCard) : Bool :=
  c.displayNone
    || hiddenClassNames.any (fun cls => c.classes.contains cls)
    || c.computedVisibilityHidden

/-- `classList.add`. -/
def addClass (c : FilterCard) (cls : String) : FilterCard :=
  if c.classes.contains cls then c else { c with classes := c.classes ++ [cls] }

/-- `classList.remove`. -/
def removeClass (c : FilterCard) (cls : String) : FilterCard :=
  { c with classes := c.classes.filter (fun x => !(x == cls)) }

/-- `FilterManager.matchesFilter`: always true with no folder selected;
the default (uncategorized) filter matches unassigned notes and notes
assigned to the default id; any other filter matches exactly its own
assignees. -/
def matchesFilter (selectedFolderId : Option String)
    (assign : String → Option String) (noteId : String) : Bool :=
  match selectedFolderId with
  | none => true
  | some sel =>
    let assignedFolderId := assign noteId
    let isUncategorized :=
      assignedFolderId = none ∨ assignedFolderId = some UNCATEGORIZED_FOLDER_ID
    if sel = UNCATEGORIZED_FOLDER_ID then decide isUncategorized
    else decide (assignedFolderId = some sel)

/-- The per-card body of `FilterManager._performFilter`: show the card
(remove the overlay hidden class) exactly when the folder filter matches
and the host does not independently hide it; otherwise hide it. -/
def performFilterCard (sel : Option String) (assign : String → Option String)
    (c : FilterCard) : FilterCard :=
  let shouldShow := matchesFilter sel assign c.noteId && !(isHiddenByNotebookLM c)
  if shouldShow then removeClass c HIDDEN_CLASS else addClass c HIDDEN_CLASS

/-- `FilterManager._performFilter` over the known cards. -/
def performFilter (sel : Option String) (assign : String → Option String)
    (cards : List FilterCard) : List FilterCard :=
  cards.map (performFilterCard sel assign)

/-! ## View State Engine: clearing sort/group projection
(`FilterManager._clearViewModeState`, `_clearGroupHeaders`,
`_clearSortState`) -/

/-- A card node inside the list container, with the marker state the
projection code reads and writes: the `folderlm-sorted` and
`folderlm-grouped` classes, the inline CSS `order`, the
`data-folderlm-order` attribute and the recorded original index. -/
structure ViewCard where
  cid : Nat
  sorted : Bool
  grouped : Bool
  styleOrder : Option String
  orderAttr : Option Nat
  originalIndexAttr : Option Nat
deriving DecidableEq

/-- A child of the list container: an overlay group-header pseudo-node or
a note card. -/
inductive ContainerNode
  | groupHeader (folderId : String)
  | card (c : ViewCard)
deriving DecidableEq

/-- Whether a node is an overlay group header. -/
def isGroupHeader : ContainerNode → Bool
  | .groupHeader _ => true
  | .card _ => false

/-- Whether a node is a card carrying the `folderlm-sorted` class. -/
def isSortedCard : ContainerNode → Bool
  | .groupHeader _ => false
  | .card c => c.sorted

/-- Remove the `folderlm-grouped` class from a card node. -/
def clearGroupedClass : ContainerNode → ContainerNode
  | .groupHeader f => .groupHeader f
  | .card c => .card { c with grouped := false }

/-- `FilterManager._clearGroupHeaders`: remove every group-header node
and strip the grouped class from every card. -/
def clearGroupHeaders (container : List ContainerNode) : List ContainerNode :=
  (container.filter (fun n => !(isGroupHeader n))).map clearGroupedClass

/-- The recorded original index of a card node (`getOriginalIndex`). -/
def cardOriginalIndex (c : ViewCard) : WithTop Nat :=
  match c.originalIndexAttr with
  | some i => (i : WithTop Nat)
  | none => ⊤

/-- Reset a card's sort markers: clear the inline CSS order, remove the
order attribute, drop the sorted class. -/
def resetSortMarks (c : ViewCard) : ViewCard :=
  { c with styleOrder := none, orderAttr := none, sorted := false }

/-- The sorted cards of the container, in document order
(`container.querySelectorAll('.folderlm-sorted')`). -/
def sortedCardsOf (container : List ContainerNode) : List ViewCard :=
  container.filterMap (fun n =>
    match n with
    | .card c => if c.sorted then some c else none
    | .groupHeader _ => none)

/-- The restore comparator of `_clearSortState`:
ascending `originalIndex`. -/
def restoreCmpLe (a b : ViewCard) : Bool :=
  decide (cardOriginalIndex a ≤ cardOriginalIndex b)

/-- Reset the sort markers of a card node in place (the loop over
`sortedCards` in `_clearSortState`); headers and unsorted cards are
untouched. -/
def resetIfSortedNode : ContainerNode → ContainerNode
  | .card c => if c.sorted then .card (resetSortMarks c) else .card c
  | .groupHeader f => .groupHeader f

/-- Whether a node stays at its position when the formerly sorted cards
(identified by `movedCids`) are re-appended: `appendChild` detaches each
moved node from its old position. -/
def keepUnmoved (movedCids : List Nat) : ContainerNode → Bool
  | .card c => !(movedCids.contains c.cid)
  | .groupHeader _ => true

/-- `FilterManager._clearSortState`: if any sorted cards exist, reset
their markers; when at least one carries a recorded original index,
rebuild them ascending by original index in a fragment and append it to
the container in one batch (each appended node leaves its old
position). -/
def clearSortState (container : List ContainerNode) : List ContainerNode :=
  let sortedCards := sortedCardsOf container
  if sortedCards.isEmpty then
    container
  else
    let container1 := container.map resetIfSortedNode
    let cardsWithIndex := sortedCards.map resetSortMarks
    if cardsWithIndex.any (fun c => !(decide (c.originalIndexAttr = none))) then
      let restored := sortLe restoreCmpLe cardsWithIndex
      container1.filter (keepUnmoved (sortedCards.map (·.cid)))
        ++ restored.map ContainerNode.card
    else
      container1

/-- `FilterManager._clearViewModeState`: clear group headers first, then
clear the sort state. -/
def clearViewModeState (container : List ContainerNode) : List ContainerNode :=
  clearSortState (clearGroupHeaders container)

/-- The card nodes of a container, in order. -/
def cardsOf (container : List ContainerNode) : List ViewCard :=
  container.filterMap (fun n =>
    match n with
    | .card c => some c
    | .groupHeader _ => none)

/-- A concrete container fixture after a Group projection: one header
and three cards, two of them sorted with markers and recorded original
indices (out of order), one untouched. -/
def sampleContainer : List ContainerNode :=
  [ContainerNode.groupHeader "f1",
   ContainerNode.card ⟨1, true, true, some "2", some 2, some 1⟩,
   ContainerNode.card ⟨3, false, false, none, none, some 2⟩,
   ContainerNode.card ⟨2, true, false, some "1", some 1, some 0⟩]

/-! ## Association-list lemmas -/

theorem aGet_aDel_self {κ ν : Type} [DecidableEq κ] (m : List (κ × ν)) (k : κ) :
    aGet (aDel m k) k = none := by
  induction m with
  | nil => rfl
  | cons p rest ih =>
    obtain ⟨k0, v0⟩ := p
    by_cases h : k0 = k
    · simpa [aDel, h] using ih
    · simpa [aDel, aGet, h] using ih

theorem aGet_aDel_ne {κ ν : Type} [DecidableEq κ] (m : List (κ × ν))
    (k k' : κ) (h : k' ≠ k) : aGet (aDel m k) k' = aGet m k' := by
  induction m with
  | nil => rfl
  | cons p rest ih =>
    obtain ⟨k0, v0⟩ := p
    by_cases h0 : k0 = k
    · subst h0
      have hne : ¬(k0 = k') := fun hx => h hx.symm
      simp [aDel, aGet, hne, ih]
    · by_cases h1 : k0 = k'
      · subst h1
        simp [aDel, aGet, h0]
      · simp [aDel, aGet, h0, h1, ih]

theorem aGet_aSet_self {κ ν : Type} [DecidableEq κ] (m : List (κ × ν))
    (k : κ) (v : ν) : aGet (aSet m k v) k = some v := by
  simp [aSet, aGet]

theorem aGet_aSet_ne {κ ν : Type} [DecidableEq κ] (m : List (κ × ν))
    (k k' : κ) (v : ν) (h : k' ≠ k) : aGet (aSet m k v) k' = aGet m k' := by
  have : ¬(k = k') := fun hx => h hx.symm
  simp [aSet, aGet, this, aGet_aDel_ne m k k' h]

theorem aGet_isSome_iff_mem_keys {κ ν : Type} [DecidableEq κ]
    (m : List (κ × ν)) (k : κ) :
    (aGet m k).isSome = true ↔ k ∈ m.map (·.1) := by
  induction m with
  | nil => simp [aGet]
  | cons p rest ih =>
    obtain ⟨k0, v0⟩ := p
    by_cases h : k0 = k
    · simp [aGet, h]
    · have : ¬(k = k0) := fun hx => h hx.symm
      simp [aGet, h, this, ih]

/-! ## Claim C1: group-mode fallback -/

/-- C1: the group-mode fallback does not behave as specified.  Evaluating
`_groupByFolderWithFallback` from Group mode with zero accumulated
failures: after 3 consecutive verification failures the stored mode is
still `"group"` (it is never demoted to `"sort"`) even though exactly one
`viewmode_fallback` notification has fired; a 4th consecutive failure
fires a second `viewmode_fallback` notification; a single success resets
the failure counter to 0 as specified. -/
theorem groupFallback_keeps_group_mode_and_renotifies :
    (groupByFolderWithFallback true (groupByFolderWithFallback true
      (groupByFolderWithFallback true groupModeStart))).viewMode = "group" ∧
    (groupByFolderWithFallback true (groupByFolderWithFallback true
      (groupByFolderWithFallback true groupModeStart))).notifications =
      ["viewmode_fallback"] ∧
    (groupByFolderWithFallback true (groupByFolderWithFallback true
      (groupByFolderWithFallback true (groupByFolderWithFallback true
        groupModeStart)))).viewMode = "group" ∧
    (groupByFolderWithFallback true (groupByFolderWithFallback true
      (groupByFolderWithFallback true (groupByFolderWithFallback true
        groupModeStart)))).notifications =
      ["viewmode_fallback", "viewmode_fallback"] ∧
    (groupByFolderWithFallback false (groupByFolderWithFallback true
      (groupByFolderWithFallback true
        groupModeStart))).groupModeFailureCount = 0 := by
  decide

/-! ## Claim C10: `setViewMode` with the current mode -/

/-- C10: calling `setViewMode` with the mode that is already current
returns `true` and leaves the state untouched: the stored mode is not
rewritten, no persistence write is recorded, no batched apply is
scheduled, and no notification is emitted. -/
theorem setViewMode_same_mode_noop (s : FilterManagerState) (mode : String)
    (hvalid : VIEW_MODES.contains mode = true) (hsame : s.viewMode = mode) :
    setViewMode mode s = (true, s) := by
  have hmem : mode ∈ VIEW_MODES := by simpa using hvalid
  simp [setViewMode, hmem, hsame]

/-- Witness for C10 at a concrete state already in sort mode. -/
theorem setViewMode_same_mode_noop_witness :
    setViewMode "sort"
      { viewMode := "sort", groupModeFailureCount := 1,
        storageViewModeWrites := [], pendingViewModeApply := false,
        notifications := [] } =
    (true,
      { viewMode := "sort", groupModeFailureCount := 1,
        storageViewModeWrites := [], pendingViewModeApply := false,
        notifications := [] }) :=
  setViewMode_same_mode_noop _ "sort" (by decide) rfl

/-! ## Claim C8: recovery suppression while hidden -/

theorem performRecovery_hidden (s : RecoveryManagerState)
    (h : s.isVisible = false) : performRecovery s = s := by
  unfold performRecovery
  split
  · rfl
  · simp [h]

theorem checkAndRecover_visible_checksRun (needsRecovery : Bool)
    (s : RecoveryManagerState) (h : s.isVisible = true) :
    (checkAndRecover needsRecovery s).checksRun = s.checksRun + 1 := by
  by_cases hn : needsRecovery = true
  · simp [checkAndRecover, h, hn]
  · simp [checkAndRecover, h, hn]

/-- C8: while the page is hidden, no event other than a
becoming-visible transition executes a recovery check or runs the
recovery callbacks; a hidden→visible transition executes exactly one
immediate recovery check. -/
theorem recovery_hidden_suppression (s : RecoveryManagerState)
    (needsRecovery : Bool) (h : s.isVisible = false) :
    (∀ e : RMEvent, e ≠ RMEvent.visibility true →
      (rmStep e needsRecovery s).checksRun = s.checksRun ∧
      (rmStep e needsRecovery s).recoveryRuns = s.recoveryRuns) ∧
    (rmStep (RMEvent.visibility true) needsRecovery s).checksRun
      = s.checksRun + 1 := by
  constructor
  · intro e he
    cases e with
    | visibility v =>
      cases v
      · simp [rmStep, handleVisibilityChange, h, onTabHidden]
      · exact absurd rfl he
    | focusGained => simp [rmStep, checkAndRecover, h]
    | debounceTimer =>
      have hstep : rmStep RMEvent.debounceTimer needsRecovery s
          = debounceFire s := rfl
      rw [hstep]
      unfold debounceFire
      split
      · rw [performRecovery_hidden { s with pendingRecovery := false } h]
        exact ⟨rfl, rfl⟩
      · exact ⟨rfl, rfl⟩
    | requestRecovery => exact ⟨rfl, rfl⟩
    | recoverNow =>
      have hstep : rmStep RMEvent.recoverNow needsRecovery s
          = performRecovery { s with pendingRecovery := false } := rfl
      rw [hstep, performRecovery_hidden { s with pendingRecovery := false } h]
      exact ⟨rfl, rfl⟩
  · have hstep : rmStep (RMEvent.visibility true) needsRecovery s
        = onTabVisible needsRecovery { s with isVisible := true } := by
      simp [rmStep, handleVisibilityChange, h]
    rw [hstep]
    unfold onTabVisible
    split
    · rw [checkAndRecover_visible_checksRun needsRecovery _ rfl]
    · rw [checkAndRecover_visible_checksRun needsRecovery _ rfl]

/-- Witness for C8 at a concrete hidden state: a pending debounce timer
firing while hidden runs no check and no callbacks; the hidden→visible
transition bumps the check counter by exactly one. -/
theorem recovery_hidden_suppression_witness :
    (rmStep RMEvent.debounceTimer true
      { isVisible := false, recState := "paused", pendingRecovery := true,
        checksRun := 2, recoveryRuns := 1 }).checksRun = 2 ∧
    (rmStep RMEvent.debounceTimer true
      { isVisible := false, recState := "paused", pendingRecovery := true,
        checksRun := 2, recoveryRuns := 1 }).recoveryRuns = 1 ∧
    (rmStep (RMEvent.visibility true) true
      { isVisible := false, recState := "paused", pendingRecovery := true,
        checksRun := 2, recoveryRuns := 1 }).checksRun = 2 + 1 :=
  ⟨((recovery_hidden_suppression
      { isVisible := false, recState := "paused", pendingRecovery := true,
        checksRun := 2, recoveryRuns := 1 } true rfl).1
      RMEvent.debounceTimer (by decide)).1,
   ((recovery_hidden_suppression
      { isVisible := false, recState := "paused", pendingRecovery := true,
        checksRun := 2, recoveryRuns := 1 } true rfl).1
      RMEvent.debounceTimer (by decide)).2,
   (recovery_hidden_suppression
      { isVisible := false, recState := "paused", pendingRecovery := true,
        checksRun := 2, recoveryRuns := 1 } true rfl).2⟩

/-! ## Claims C9 and C2: scan counts and result classification -/

theorem extractedIds_cons_some (c : HostCard) (rest : List HostCard)
    (nid : String) (hc : c.extracted = some nid) :
    extractedIds (c :: rest) = nid :: extractedIds rest := by
  simp [extractedIds, List.filterMap_cons, hc]

theorem extractedIds_cons_none (c : HostCard) (rest : List HostCard)
    (hc : c.extracted = none) :
    extractedIds (c :: rest) = extractedIds rest := by
  simp [extractedIds, List.filterMap_cons, hc]

theorem scanLoop_identified (tree : List HostCard) :
    ∀ (s : DetectorState) (i f : Nat) (nf : List Nat),
      (scanLoop tree s i f nf).2.1 = i + (extractedIds tree).length := by
  induction tree with
  | nil => intro s i f nf; simp [scanLoop, extractedIds]
  | cons c rest ih =>
    intro s i f nf
    cases hc : c.extracted with
    | some nid =>
      simp only [scanLoop, hc]
      rw [ih, extractedIds_cons_some c rest nid hc]
      simp
      omega
    | none =>
      simp only [scanLoop, hc]
      rw [ih, extractedIds_cons_none c rest hc]

theorem scanLoop_failed (tree : List HostCard) :
    ∀ (s : DetectorState) (i f : Nat) (nf : List Nat),
      (scanLoop tree s i f nf).2.2.1
        = f + (tree.length - (extractedIds tree).length) := by
  induction tree with
  | nil => intro s i f nf; simp [scanLoop, extractedIds]
  | cons c rest ih =>
    intro s i f nf
    have hle : (extractedIds rest).length ≤ rest.length :=
      List.length_filterMap_le _ _
    cases hc : c.extracted with
    | some nid =>
      simp only [scanLoop, hc]
      rw [ih, extractedIds_cons_some c rest nid hc]
      simp
    | none =>
      simp only [scanLoop, hc]
      rw [ih, extractedIds_cons_none c rest hc]
      simp
      omega

/-- C9 (invariant on scan counts): every detection pass counts each
candidate exactly once, so `identified + failed = total` in the result
`_performScan` returns. -/
theorem performScan_counts_partition (tree : List HostCard)
    (s : DetectorState) :
    (performScan tree s).result.identified
      + (performScan tree s).result.failed
      = (performScan tree s).result.total := by
  have hle : (extractedIds tree).length ≤ tree.length :=
    List.length_filterMap_le _ _
  have hi := scanLoop_identified tree { s with noteMap := [] } 0 0 []
  have hf := scanLoop_failed tree { s with noteMap := [] } 0 0 []
  simp [performScan, createDetectionResult, hi, hf]
  omega

/-- C2: classification of a detection pass.  With zero candidate nodes
the status is `no_notes` (EmptyList); with candidates but zero resolved
ids it is `failed` (NoneIdentified); with some but not all resolved it is
`partial` (PartiallyIdentified); with every candidate resolved it is
`success` (AllIdentified).  A `failed` status — and only that status — is
reported through the error listeners rather than by throwing. -/
theorem performScan_status_classification (tree : List HostCard)
    (s : DetectorState) :
    (tree.length = 0 → (performScan tree s).result.status = "no_notes") ∧
    (tree.length ≠ 0 → (extractedIds tree).length = 0 →
      (performScan tree s).result.status = "failed") ∧
    (0 < (extractedIds tree).length →
      (extractedIds tree).length < tree.length →
      (performScan tree s).result.status = "partial") ∧
    (tree.length ≠ 0 → (extractedIds tree).length = tree.length →
      (performScan tree s).result.status = "success") ∧
    ((performScan tree s).errorNotified = true ↔
      (performScan tree s).result.status = "failed") := by
  have hi := scanLoop_identified tree { s with noteMap := [] } 0 0 []
  have hf := scanLoop_failed tree { s with noteMap := [] } 0 0 []
  refine ⟨?_, ?_, ?_, ?_, ?_⟩
  · intro h0
    simp [performScan, createDetectionResult, h0]
  · intro h0 hz
    simp [performScan, createDetectionResult, hi, hf, h0, hz]
  · intro hpos hlt
    have h0 : tree.length ≠ 0 := by omega
    have hne : (extractedIds tree).length ≠ 0 := by omega
    have hfpos : 0 < tree.length - (extractedIds tree).length := by omega
    simp [performScan, createDetectionResult, hi, hf, h0, hne, hfpos]
  · intro h0 hall
    have hne : (extractedIds tree).length ≠ 0 := by omega
    have hz : tree.length - (extractedIds tree).length = 0 := by omega
    simp [performScan, createDetectionResult, hi, hf, h0, hne, hz]
  · simp [performScan]

/-- Witness for C2 at a concrete tree with one resolved and one failed
candidate: the pass is classified `partial`, and the error callback
fires exactly for `failed` passes (here: it did not fire). -/
theorem performScan_status_classification_witness :
    (performScan [⟨1, some "a"⟩, ⟨2, none⟩]
      ⟨[], [], [], []⟩).result.status = "partial" ∧
    ((performScan [⟨1, some "a"⟩, ⟨2, none⟩]
        ⟨[], [], [], []⟩).errorNotified = true ↔
      (performScan [⟨1, some "a"⟩, ⟨2, none⟩]
        ⟨[], [], [], []⟩).result.status = "failed") :=
  ⟨(performScan_status_classification [⟨1, some "a"⟩, ⟨2, none⟩]
      ⟨[], [], [], []⟩).2.2.1 (by decide) (by decide),
   (performScan_status_classification [⟨1, some "a"⟩, ⟨2, none⟩]
      ⟨[], [], [], []⟩).2.2.2.2⟩

/-! ## Claim C5: duplicate-id registration evicts the old node -/

/-- C5: registering an id already bound to a different node rebinds the
id to the new node; the evicted node's overlay marker attributes (stored
note id and initialized marker) are removed, its reverse-map entry is
deleted, and the new node carries the markers.  The identity map itself
binds at most one node per id (it is a map). -/
theorem registerNote_duplicate_eviction (s : DetectorState)
    (noteId : String) (oldCard newCard : Nat)
    (hbound : aGet s.noteMap noteId = some oldCard)
    (hne : oldCard ≠ newCard) :
    aGet (registerNote noteId newCard s).noteMap noteId = some newCard ∧
    attrsOf (registerNote noteId newCard s) oldCard = defaultAttrs ∧
    aGet (registerNote noteId newCard s).elementMap oldCard = none ∧
    aGet (registerNote noteId newCard s).elementMap newCard = some noteId ∧
    attrsOf (registerNote noteId newCard s) newCard
      = { noteIdAttr := some noteId, initializedAttr := true } ∧
    (∀ c c' : Nat, aGet (registerNote noteId newCard s).noteMap noteId = some c →
      aGet (registerNote noteId newCard s).noteMap noteId = some c' → c = c') := by
  have hreg : registerNote noteId newCard s =
      { noteMap := aSet s.noteMap noteId newCard,
        elementMap := aSet (aDel s.elementMap oldCard) newCard noteId,
        attrs := aSet (aSet s.attrs oldCard defaultAttrs) newCard
          { noteIdAttr := some noteId, initializedAttr := true },
        failedCards := s.failedCards.filter (fun c => !(decide (c = newCard))) } := by
    unfold registerNote
    rw [hbound]
    simp [hne]
  refine ⟨?_, ?_, ?_, ?_, ?_, ?_⟩
  · rw [hreg]
    exact aGet_aSet_self _ _ _
  · rw [hreg]
    unfold attrsOf
    simp only
    rw [aGet_aSet_ne _ _ _ _ hne, aGet_aSet_self]
    rfl
  · rw [hreg]
    simp only
    rw [aGet_aSet_ne _ _ _ _ hne, aGet_aDel_self]
  · rw [hreg]
    exact aGet_aSet_self _ _ _
  · rw [hreg]
    unfold attrsOf
    simp only
    rw [aGet_aSet_self]
    rfl
  · intro c c' hc hc'
    exact Option.some.inj (hc.symm.trans hc')

/-- Witness for C5: a detector holding `"a" ↦ 1` re-registers `"a"` on
node `2`: the id is rebound to node 2 and node 1 is left with no overlay
markers and no reverse-map entry. -/
theorem registerNote_duplicate_eviction_witness :
    aGet (registerNote "a" 2
      ⟨[("a", 1)], [(1, "a")], [(1, ⟨some "a", true⟩)], []⟩).noteMap "a"
      = some 2 ∧
    attrsOf (registerNote "a" 2
      ⟨[("a", 1)], [(1, "a")], [(1, ⟨some "a", true⟩)], []⟩) 1
      = defaultAttrs ∧
    aGet (registerNote "a" 2
      ⟨[("a", 1)], [(1, "a")], [(1, ⟨some "a", true⟩)], []⟩).elementMap 1
      = none :=
  ⟨(registerNote_duplicate_eviction
      ⟨[("a", 1)], [(1, "a")], [(1, ⟨some "a", true⟩)], []⟩ "a" 1 2
      (by decide) (by decide)).1,
   (registerNote_duplicate_eviction
      ⟨[("a", 1)], [(1, "a")], [(1, ⟨some "a", true⟩)], []⟩ "a" 1 2
      (by decide) (by decide)).2.1,
   (registerNote_duplicate_eviction
      ⟨[("a", 1)], [(1, "a")], [(1, ⟨some "a", true⟩)], []⟩ "a" 1 2
      (by decide) (by decide)).2.2.1⟩

/-! ## Claim C6: `detectChanges` idempotence -/

theorem registerNote_noteMap_aGet (noteId : String) (card : Nat)
    (s : DetectorState) (n : String) :
    aGet (registerNote noteId card s).noteMap n
      = if n = noteId then some card else aGet s.noteMap n := by
  unfold registerNote
  cases hb : aGet s.noteMap noteId with
  | none =>
    by_cases hn : n = noteId
    · subst hn
      simp [aGet_aSet_self]
    · simp [hn, aGet_aSet_ne _ _ _ _ hn]
  | some existingCard =>
    by_cases he : existingCard = card
    · subst he
      by_cases hn : n = noteId
      · subst hn
        simp [hb]
      · simp [hn]
    · simp only [he, if_false]
      by_cases hn : n = noteId
      · subst hn
        simp [aGet_aSet_self]
      · simp [hn, aGet_aSet_ne _ _ _ _ hn]

theorem registerNote_noteMap_isSome (noteId : String) (card : Nat)
    (s : DetectorState) (n : String) :
    (aGet (registerNote noteId card s).noteMap n).isSome = true ↔
      (n = noteId ∨ (aGet s.noteMap n).isSome = true) := by
  rw [registerNote_noteMap_aGet]
  by_cases hn : n = noteId <;> simp [hn]

theorem unregisterNote_noteMap_aGet (noteId : String) (s : DetectorState)
    (n : String) :
    aGet (unregisterNote noteId s).noteMap n
      = if n = noteId then none else aGet s.noteMap n := by
  unfold unregisterNote
  cases hb : aGet s.noteMap noteId with
  | none =>
    by_cases hn : n = noteId
    · subst hn
      simp [aGet_aDel_self]
    · simp [hn, aGet_aDel_ne _ _ _ hn]
  | some card =>
    by_cases hn : n = noteId
    · subst hn
      simp [aGet_aDel_self]
    · simp [hn, aGet_aDel_ne _ _ _ hn]

theorem unregisterNote_noteMap_isSome (noteId : String) (s : DetectorState)
    (n : String) :
    (aGet (unregisterNote noteId s).noteMap n).isSome = true ↔
      (¬(n = noteId) ∧ (aGet s.noteMap n).isSome = true) := by
  rw [unregisterNote_noteMap_aGet]
  by_cases hn : n = noteId <;> simp [hn]

theorem detectLoop_noteMap_isSome (prev : List String) (tree : List HostCard) :
    ∀ (cur add : List String) (s : DetectorState) (n : String),
      (aGet (detectLoop prev tree cur add s).2.2.noteMap n).isSome = true ↔
        (n ∈ extractedIds tree ∨ (aGet s.noteMap n).isSome = true) := by
  induction tree with
  | nil =>
    intro cur add s n
    simp [detectLoop, extractedIds]
  | cons c rest ih =>
    intro cur add s n
    cases hc : c.extracted with
    | none =>
      rw [extractedIds_cons_none c rest hc]
      simp only [detectLoop, hc]
      exact ih cur add s n
    | some nid =>
      rw [extractedIds_cons_some c rest nid hc]
      simp only [detectLoop, hc]
      by_cases hmem : nid ∈ prev
      · rw [if_pos hmem]
        by_cases hup : aGet s.noteMap nid ≠ some c.cardId
        · rw [if_pos hup, ih, registerNote_noteMap_isSome]
          simp only [List.mem_cons]
          tauto
        · rw [if_neg hup, ih]
          have hsome : (aGet s.noteMap nid).isSome = true := by
            rw [not_not] at hup
            rw [hup]
            rfl
          simp only [List.mem_cons]
          constructor
          · tauto
          · rintro (⟨h | h⟩ | h)
            · subst h
              exact Or.inr hsome
            · tauto
            · tauto
      · rw [if_neg hmem, ih, registerNote_noteMap_isSome]
        simp only [List.mem_cons]
        tauto

theorem detectLoop_currentIds (prev : List String) (tree : List HostCard) :
    ∀ (cur add : List String) (s : DetectorState),
      (detectLoop prev tree cur add s).1 = cur ++ extractedIds tree := by
  induction tree with
  | nil =>
    intro cur add s
    simp [detectLoop, extractedIds]
  | cons c rest ih =>
    intro cur add s
    cases hc : c.extracted with
    | none =>
      rw [extractedIds_cons_none c rest hc]
      simp only [detectLoop, hc]
      exact ih cur add s
    | some nid =>
      rw [extractedIds_cons_some c rest nid hc]
      simp only [detectLoop, hc]
      by_cases hmem : nid ∈ prev
      · rw [if_pos hmem]
        by_cases hup : aGet s.noteMap nid ≠ some c.cardId
        · rw [if_pos hup, ih]
          simp
        · rw [if_neg hup, ih]
          simp
      · rw [if_neg hmem, ih]
        simp

theorem detectLoop_added_preserved (prev : List String)
    (tree : List HostCard) :
    ∀ (cur add : List String) (s : DetectorState),
      (∀ n ∈ extractedIds tree, n ∈ prev) →
      (detectLoop prev tree cur add s).2.1 = add := by
  induction tree with
  | nil =>
    intro cur add s _
    rfl
  | cons c rest ih =>
    intro cur add s h
    cases hc : c.extracted with
    | none =>
      simp only [detectLoop, hc]
      refine ih cur add s ?_
      intro n hn
      exact h n (by rw [extractedIds_cons_none c rest hc]; exact hn)
    | some nid =>
      have hrest : ∀ n ∈ extractedIds rest, n ∈ prev := by
        intro n hn
        refine h n ?_
        rw [extractedIds_cons_some c rest nid hc]
        exact List.mem_cons_of_mem _ hn
      have hmem : nid ∈ prev := by
        refine h nid ?_
        rw [extractedIds_cons_some c rest nid hc]
        exact List.mem_cons_self _ _
      simp only [detectLoop, hc]
      rw [if_pos hmem]
      by_cases hup : aGet s.noteMap nid ≠ some c.cardId
      · rw [if_pos hup]
        exact ih _ add _ hrest
      · rw [if_neg hup]
        exact ih _ add _ hrest

theorem removeLoop_removed_preserved (cur prevList : List String) :
    ∀ (rem : List String) (s : DetectorState),
      (∀ n ∈ prevList, n ∈ cur) →
      (removeLoop cur prevList rem s).1 = rem := by
  induction prevList with
  | nil =>
    intro rem s _
    rfl
  | cons nid rest ih =>
    intro rem s h
    have hmem : nid ∈ cur := h nid (List.mem_cons_self _ _)
    simp only [removeLoop]
    rw [if_pos hmem]
    exact ih rem s (fun n hn => h n (List.mem_cons_of_mem _ hn))

theorem removeLoop_noteMap_isSome (cur : List String)
    (prevList : List String) :
    ∀ (rem : List String) (s : DetectorState) (n : String),
      (aGet (removeLoop cur prevList rem s).2.noteMap n).isSome = true ↔
        ((aGet s.noteMap n).isSome = true ∧
          ¬(n ∈ prevList ∧ n ∉ cur)) := by
  induction prevList with
  | nil =>
    intro rem s n
    simp [removeLoop]
  | cons nid rest ih =>
    intro rem s n
    by_cases hmem : nid ∈ cur
    · simp only [removeLoop]
      rw [if_pos hmem, ih]
      simp only [List.mem_cons]
      constructor
      · rintro ⟨hs, hnc⟩
        refine ⟨hs, ?_⟩
        rintro ⟨(h1 | h1), h2⟩
        · exact h2 (h1 ▸ hmem)
        · exact hnc ⟨h1, h2⟩
      · rintro ⟨hs, hnc⟩
        refine ⟨hs, ?_⟩
        rintro ⟨h1, h2⟩
        exact hnc ⟨Or.inr h1, h2⟩
    · simp only [removeLoop]
      rw [if_neg hmem, ih, unregisterNote_noteMap_isSome]
      simp only [List.mem_cons]
      constructor
      · rintro ⟨⟨hne, hs⟩, hnc⟩
        refine ⟨hs, ?_⟩
        rintro ⟨(h1 | h1), h2⟩
        · exact hne h1
        · exact hnc ⟨h1, h2⟩
      · rintro ⟨hs, hnc⟩
        have hne : ¬(n = nid) := by
          intro h1
          exact hnc ⟨Or.inl h1, h1 ▸ hmem⟩
        refine ⟨⟨hne, hs⟩, ?_⟩
        rintro ⟨h1, h2⟩
        exact hnc ⟨Or.inr h1, h2⟩

theorem detectChanges_state_noteMap (tree : List HostCard)
    (s : DetectorState) (n : String) :
    (aGet (detectChanges tree s).state.noteMap n).isSome = true ↔
      n ∈ extractedIds tree := by
  show (aGet (removeLoop
    (detectLoop (s.noteMap.map (·.1)) tree [] [] s).1
    (s.noteMap.map (·.1)) []
    (detectLoop (s.noteMap.map (·.1)) tree [] [] s).2.2).2.noteMap n).isSome
      = true ↔ n ∈ extractedIds tree
  rw [removeLoop_noteMap_isSome, detectLoop_noteMap_isSome,
    detectLoop_currentIds]
  rw [← aGet_isSome_iff_mem_keys s.noteMap n]
  simp only [List.nil_append]
  constructor
  · rintro ⟨(h1 | h1), h2⟩
    · exact h1
    · by_contra hne
      exact h2 ⟨h1, hne⟩
  · intro h
    exact ⟨Or.inl h, fun hx => hx.2 h⟩

theorem detectChanges_empty_of_synced (tree : List HostCard)
    (t : DetectorState)
    (hsync : ∀ n, (aGet t.noteMap n).isSome = true ↔ n ∈ extractedIds tree) :
    (detectChanges tree t).added = [] ∧
    (detectChanges tree t).removed = [] := by
  have hprev : ∀ n, n ∈ t.noteMap.map (·.1) ↔ n ∈ extractedIds tree := by
    intro n
    rw [← aGet_isSome_iff_mem_keys]
    exact hsync n
  constructor
  · show (detectLoop (t.noteMap.map (·.1)) tree [] [] t).2.1 = []
    exact detectLoop_added_preserved _ _ [] [] t (fun n hn => (hprev n).mpr hn)
  · show (removeLoop (detectLoop (t.noteMap.map (·.1)) tree [] [] t).1
      (t.noteMap.map (·.1)) []
      (detectLoop (t.noteMap.map (·.1)) tree [] [] t).2.2).1 = []
    refine removeLoop_removed_preserved _ _ [] _ ?_
    intro n hn
    rw [detectLoop_currentIds]
    simpa using (hprev n).mp hn

/-- C6 (amended): the second of two consecutive `detectChanges` calls
over the same host tree always returns the empty diff, and the first
call also returns the empty diff whenever the detector's identity map is
already synchronized with the tree (as it is right after a scan or a
prior `detectChanges`). -/
theorem detectChanges_second_call_empty (tree : List HostCard)
    (s : DetectorState) :
    ((detectChanges tree (detectChanges tree s).state).added = [] ∧
      (detectChanges tree (detectChanges tree s).state).removed = []) ∧
    ((∀ n, (aGet s.noteMap n).isSome = true ↔ n ∈ extractedIds tree) →
      (detectChanges tree s).added = [] ∧
      (detectChanges tree s).removed = []) :=
  ⟨detectChanges_empty_of_synced tree _ (detectChanges_state_noteMap tree s),
   fun h => detectChanges_empty_of_synced tree s h⟩

/-- Witness for C6 at a one-card tree, with the synchronized-detector
hypothesis discharged at a concrete synchronized state. -/
theorem detectChanges_second_call_empty_witness :
    (((detectChanges [⟨1, some "a"⟩] (detectChanges [⟨1, some "a"⟩]
        ⟨[("a", 1)], [(1, "a")], [(1, ⟨some "a", true⟩)], []⟩).state).added
          = [] ∧
      (detectChanges [⟨1, some "a"⟩] (detectChanges [⟨1, some "a"⟩]
        ⟨[("a", 1)], [(1, "a")], [(1, ⟨some "a", true⟩)], []⟩).state).removed
          = []) ∧
    ((detectChanges [⟨1, some "a"⟩]
        ⟨[("a", 1)], [(1, "a")], [(1, ⟨some "a", true⟩)], []⟩).added = [] ∧
      (detectChanges [⟨1, some "a"⟩]
        ⟨[("a", 1)], [(1, "a")], [(1, ⟨some "a", true⟩)], []⟩).removed
          = [])) :=
  ⟨(detectChanges_second_call_empty [⟨1, some "a"⟩]
      ⟨[("a", 1)], [(1, "a")], [(1, ⟨some "a", true⟩)], []⟩).1,
   (detectChanges_second_call_empty [⟨1, some "a"⟩]
      ⟨[("a", 1)], [(1, "a")], [(1, ⟨some "a", true⟩)], []⟩).2
     (by
       intro n
       by_cases h : n = "a"
       · subst h
         simp [aGet, extractedIds]
       · simp [aGet, extractedIds, h, Ne.symm h])⟩

/-- Counterexample to C6 as stated: on an unsynchronized detector (fresh
empty state) and a one-card tree, the first of the two calls does not
return the empty diff — it reports the newly registered id as added. -/
theorem detectChanges_first_call_nonempty :
    ¬((detectChanges [⟨1, some "a"⟩] ⟨[], [], [], []⟩).added = [] ∧
      (detectChanges [⟨1, some "a"⟩] ⟨[], [], [], []⟩).removed = []) := by
  decide

/-! ## Claim C4: filter application -/

theorem not_mem_filter_ne (l : List String) (cls : String) :
    cls ∉ l.filter (fun x => !(x == cls)) := by
  intro hmem
  have := List.of_mem_filter hmem
  simp at this

theorem contains_filter_ne (l : List String) (cls : String) :
    (l.filter (fun x => !(x == cls))).contains cls = false := by
  simp [not_mem_filter_ne l cls]

theorem contains_removeClass (c : FilterCard) (cls : String) :
    (removeClass c cls).classes.contains cls = false := by
  unfold removeClass
  exact contains_filter_ne c.classes cls

theorem contains_addClass (c : FilterCard) (cls : String) :
    (addClass c cls).classes.contains cls = true := by
  unfold addClass
  split
  · assumption
  · simp

/-- C4: after a filter pass, each known item carries the overlay hidden
marker exactly when it fails `matchesFilter` or the host independently
hides it — visibility equals `matches(id) AND NOT hiddenByHost(node)`.
Moreover `matchesFilter` is true whenever no folder filter is selected,
and the fixed default-folder filter matches both unassigned items and
items assigned to the default folder id.  The pass itself processes each
known card pointwise. -/
theorem performFilter_visibility (sel : Option String)
    (assign : String → Option String) (cards : List FilterCard) :
    (performFilter sel assign cards
      = cards.map (performFilterCard sel assign)) ∧
    (∀ c : FilterCard,
      (((performFilterCard sel assign c).classes.contains HIDDEN_CLASS
          = false) ↔
        (matchesFilter sel assign c.noteId = true ∧
          isHiddenByNotebookLM c = false))) ∧
    (∀ n : String, matchesFilter none assign n = true) ∧
    (∀ n : String, assign n = none →
      matchesFilter (some UNCATEGORIZED_FOLDER_ID) assign n = true) ∧
    (∀ n : String, assign n = some UNCATEGORIZED_FOLDER_ID →
      matchesFilter (some UNCATEGORIZED_FOLDER_ID) assign n = true) := by
  refine ⟨rfl, ?_, ?_, ?_, ?_⟩
  · intro c
    by_cases hm : matchesFilter sel assign c.noteId = true
    · by_cases hh : isHiddenByNotebookLM c = true
      · have hred : performFilterCard sel assign c = addClass c HIDDEN_CLASS := by
          unfold performFilterCard
          simp [hm, hh]
        rw [hred, contains_addClass]
        simp [hh]
      · have hh' : isHiddenByNotebookLM c = false := by
          cases h : isHiddenByNotebookLM c
          · rfl
          · exact absurd h hh
        have hred : performFilterCard sel assign c
            = removeClass c HIDDEN_CLASS := by
          unfold performFilterCard
          simp [hm, hh']
        rw [hred, contains_removeClass]
        simp [hm, hh']
    · have hm' : matchesFilter sel assign c.noteId = false := by
        cases h : matchesFilter sel assign c.noteId
        · rfl
        · exact absurd h hm
      have hred : performFilterCard sel assign c = addClass c HIDDEN_CLASS := by
        unfold performFilterCard
        simp [hm']
      rw [hred, contains_addClass]
      simp [hm']
  · intro n
    rfl
  · intro n h
    simp [matchesFilter, h]
  · intro n h
    simp [matchesFilter, h]

/-- Witness for C4: under the default-folder filter, an unassigned
host-visible card ends up visible (no overlay hidden marker), a
host-hidden card ends up hidden, and the default filter matches the
unassigned note id `"a"`. -/
theorem performFilter_visibility_witness :
    (((performFilterCard (some UNCATEGORIZED_FOLDER_ID) (fun _ => none)
        ⟨"a", false, false, []⟩).classes.contains HIDDEN_CLASS = false) ↔
      (matchesFilter (some UNCATEGORIZED_FOLDER_ID) (fun _ => none) "a"
          = true ∧
        isHiddenByNotebookLM
          (⟨"a", false, false, []⟩ : FilterCard) = false)) ∧
    (((performFilterCard (some UNCATEGORIZED_FOLDER_ID) (fun _ => none)
        ⟨"b", true, false, []⟩).classes.contains HIDDEN_CLASS = false) ↔
      (matchesFilter (some UNCATEGORIZED_FOLDER_ID) (fun _ => none) "b"
          = true ∧
        isHiddenByNotebookLM
          (⟨"b", true, false, []⟩ : FilterCard) = false)) ∧
    matchesFilter (some UNCATEGORIZED_FOLDER_ID) (fun _ => none) "a"
      = true :=
  ⟨(performFilter_visibility (some UNCATEGORIZED_FOLDER_ID) (fun _ => none)
      []).2.1 ⟨"a", false, false, []⟩,
   (performFilter_visibility (some UNCATEGORIZED_FOLDER_ID) (fun _ => none)
      []).2.1 ⟨"b", true, false, []⟩,
   (performFilter_visibility (some UNCATEGORIZED_FOLDER_ID) (fun _ => none)
      []).2.2.2.1 "a" rfl⟩

/-! ## Stable-sort lemmas -/

theorem insertLe_perm {α : Type} (le : α → α → Bool) (x : α) (l : List α) :
    (insertLe le x l).Perm (x :: l) := by
  induction l with
  | nil => exact List.Perm.refl _
  | cons y ys ih =>
    unfold insertLe
    split
    · exact List.Perm.refl _
    · exact ((ih.cons y).trans (List.Perm.swap x y ys))

theorem sortLe_perm {α : Type} (le : α → α → Bool) (l : List α) :
    (sortLe le l).Perm l := by
  induction l with
  | nil => exact List.Perm.refl _
  | cons x xs ih =>
    exact (insertLe_perm le x (sortLe le xs)).trans (ih.cons x)

theorem mem_insertLe {α : Type} (le : α → α → Bool) (x : α) (l : List α)
    (a : α) : a ∈ insertLe le x l ↔ a = x ∨ a ∈ l := by
  rw [(insertLe_perm le x l).mem_iff]
  simp

theorem insertLe_pairwise {α : Type} (le : α → α → Bool)
    (htot : ∀ a b, le a b = true ∨ le b a = true)
    (htrans : ∀ a b c, le a b = true → le b c = true → le a c = true)
    (x : α) (l : List α) (h : l.Pairwise (fun a b => le a b = true)) :
    (insertLe le x l).Pairwise (fun a b => le a b = true) := by
  induction l with
  | nil => simp [insertLe]
  | cons y ys ih =>
    unfold insertLe
    by_cases hxy : le x y = true
    · rw [if_pos hxy]
      refine List.Pairwise.cons ?_ h
      intro z hz
      rcases List.mem_cons.mp hz with hz | hz
      · exact hz ▸ hxy
      · exact htrans x y z hxy (List.rel_of_pairwise_cons h hz)
    · rw [if_neg hxy]
      have hyx : le y x = true := (htot x y).resolve_left hxy
      refine List.Pairwise.cons ?_ (ih (List.Pairwise.sublist (List.sublist_cons_self y ys) h))
      intro z hz
      rcases (mem_insertLe le x ys z).mp hz with hz | hz
      · exact hz ▸ hyx
      · exact List.rel_of_pairwise_cons h hz

theorem sortLe_pairwise {α : Type} (le : α → α → Bool)
    (htot : ∀ a b, le a b = true ∨ le b a = true)
    (htrans : ∀ a b c, le a b = true → le b c = true → le a c = true)
    (l : List α) :
    (sortLe le l).Pairwise (fun a b => le a b = true) := by
  induction l with
  | nil => simp [sortLe]
  | cons x xs ih => exact insertLe_pairwise le htot htrans x (sortLe le xs) ih

/-! ## `folderOrderMap` lemmas -/

theorem aGet_foldl_aSet {α κ ν : Type} [DecidableEq κ]
    (key : α → κ) (val : α → ν) :
    ∀ (l : List α) (m0 : List (κ × ν)) (k : κ),
      aGet (l.foldl (fun m x => aSet m (key x) (val x)) m0) k =
        (match l.reverse.find? (fun x => decide (key x = k)) with
         | some x => some (val x)
         | none => aGet m0 k) := by
  intro l
  induction l with
  | nil => intro m0 k; rfl
  | cons x xs ih =>
    intro m0 k
    rw [List.foldl_cons, ih, List.reverse_cons, List.find?_append]
    cases hfind : xs.reverse.find? (fun y => decide (key y = k)) with
    | some y => simp
    | none =>
      by_cases hk : key x = k
      · subst hk
        simp [List.find?, aGet_aSet_self]
      · have hk' : k ≠ key x := fun hx => hk hx.symm
        simp [List.find?, hk, aGet_aSet_ne _ _ _ _ hk']

theorem folderOrderMap_aGet_of_nodup (folders : List Folder)
    (hids : (folders.map (·.id)).Nodup) (idx : Fin folders.length) :
    aGet (folderOrderMap folders) (folders.get idx).id = some idx.1 := by
  obtain ⟨i, hi⟩ := idx
  unfold folderOrderMap
  rw [aGet_foldl_aSet (fun p => p.2.id) (fun p => p.1) folders.enum []]
  have hmem : (i, folders.get ⟨i, hi⟩) ∈ folders.enum := by
    rw [List.mem_enum_iff_getElem?]
    simp [List.getElem?_eq_getElem hi]
  have hmemr : (i, folders.get ⟨i, hi⟩) ∈ folders.enum.reverse :=
    List.mem_reverse.mpr hmem
  have hsome : (folders.enum.reverse.find?
      (fun x => decide (x.2.id = (folders.get ⟨i, hi⟩).id))).isSome := by
    rw [List.find?_isSome]
    exact ⟨(i, folders.get ⟨i, hi⟩), hmemr, by simp⟩
  obtain ⟨y, hy⟩ := Option.isSome_iff_exists.mp hsome
  obtain ⟨j, g⟩ := y
  have hyp : g.id = (folders.get ⟨i, hi⟩).id := by
    have := List.find?_some hy
    simpa using this
  have hymem : (j, g) ∈ folders.enum :=
    List.mem_reverse.mp (List.mem_of_find?_eq_some hy)
  have hjg : folders[j]? = some g := List.mem_enum_iff_getElem?.mp hymem
  have hj : j < folders.length := by
    by_contra hjlt
    rw [List.getElem?_eq_none (by omega)] at hjg
    exact Option.noConfusion hjg
  have hgval : folders[j] = g := by
    have hsome := List.getElem?_eq_getElem hj
    rw [hsome] at hjg
    exact Option.some.inj hjg
  have hj2 : j < (folders.map (·.id)).length := by simpa using hj
  have hi2 : i < (folders.map (·.id)).length := by simpa using hi
  have hij : j = i := by
    have hmapj : (folders.map (·.id))[j] = g.id := by
      simp [hgval]
    have hmapi : (folders.map (·.id))[i] = (folders.get ⟨i, hi⟩).id := by
      simp [List.get_eq_getElem]
    have hinj := @List.Nodup.getElem_inj_iff _ (folders.map (·.id)) hids
      j hj2 i hi2
    apply hinj.mp
    rw [hmapj, hmapi, hyp]
  subst hij
  rw [hy]

theorem folderOrderMap_aGet_eq_none (folders : List Folder) (fid : String)
    (h : ∀ f ∈ folders, f.id ≠ fid) :
    aGet (folderOrderMap folders) fid = none := by
  unfold folderOrderMap
  rw [aGet_foldl_aSet (fun p => p.2.id) (fun p => p.1) folders.enum []]
  cases hfind : folders.enum.reverse.find? (fun x => decide (x.2.id = fid)) with
  | none => rfl
  | some y =>
    exfalso
    obtain ⟨j, g⟩ := y
    have hyp : g.id = fid := by
      have := List.find?_some hfind
      simpa using this
    have hymem : (j, g) ∈ folders.enum :=
      List.mem_reverse.mp (List.mem_of_find?_eq_some hfind)
    have hjg : folders[j]? = some g := List.mem_enum_iff_getElem?.mp hymem
    obtain ⟨hlt, heq⟩ := List.getElem?_eq_some.mp hjg
    exact h g (heq ▸ List.getElem_mem hlt) hyp

theorem folderOrderOfId_uncat (folders : List Folder) :
    folderOrderOfId folders UNCATEGORIZED_FOLDER_ID
      = uncategorizedOrder folders := by
  unfold folderOrderOfId uncategorizedOrder
  cases aGet (folderOrderMap folders) UNCATEGORIZED_FOLDER_ID <;> rfl

/-! ## Claim C3: sort-order computation -/

theorem sortCmpLe_eq_true_iff (a b : SortedNote) :
    sortCmpLe a b = true ↔
      (a.folderOrder < b.folderOrder ∨
        (a.folderOrder = b.folderOrder ∧
          a.originalIndex ≤ b.originalIndex)) := by
  unfold sortCmpLe
  by_cases h : a.folderOrder = b.folderOrder
  · rw [if_neg (fun hc => hc h)]
    simp [h]
  · rw [if_pos h]
    simp [h]

theorem sortCmpLe_total (a b : SortedNote) :
    sortCmpLe a b = true ∨ sortCmpLe b a = true := by
  rw [sortCmpLe_eq_true_iff, sortCmpLe_eq_true_iff]
  rcases lt_trichotomy a.folderOrder b.folderOrder with h | h | h
  · exact Or.inl (Or.inl h)
  · rcases le_total a.originalIndex b.originalIndex with h2 | h2
    · exact Or.inl (Or.inr ⟨h, h2⟩)
    · exact Or.inr (Or.inr ⟨h.symm, h2⟩)
  · exact Or.inr (Or.inl h)

theorem sortCmpLe_trans (a b c : SortedNote)
    (hab : sortCmpLe a b = true) (hbc : sortCmpLe b c = true) :
    sortCmpLe a c = true := by
  rw [sortCmpLe_eq_true_iff] at hab hbc ⊢
  rcases hab with h1 | ⟨h1, h1'⟩ <;> rcases hbc with h2 | ⟨h2, h2'⟩
  · exact Or.inl (h1.trans h2)
  · exact Or.inl (h2 ▸ h1)
  · exact Or.inl (h1 ▸ h2)
  · exact Or.inr ⟨h1.trans h2, h1'.trans h2'⟩

/-- C3: `_calculateSortOrder` returns a permutation of the visible notes
sorted ascending by the pair (category sort precedence, original index);
each entry carries exactly the key fields computed from the note;
unassigned notes and notes assigned to an unknown (deleted) folder
receive the default folder's precedence, which is `+∞` (`⊤`) when the
default folder is itself absent; under the stored invariant that each
folder's persisted `order` field equals its position in the folder list,
the precedence of a listed folder is its display order; consequently any
two entries of the same category appear in ascending `originalIndex`
order. -/
theorem calculateSortOrder_spec (folders : List Folder)
    (assign : String → Option String) (notes : List VisibleNote)
    (hords : ∀ p ∈ folders.enum, p.2.order = p.1)
    (hids : (folders.map (·.id)).Nodup) :
    ((calculateSortOrder folders assign notes).map (·.note)).Perm notes ∧
    (calculateSortOrder folders assign notes).Pairwise (fun a b =>
      a.folderOrder < b.folderOrder ∨
        (a.folderOrder = b.folderOrder ∧
          a.originalIndex ≤ b.originalIndex)) ∧
    (∀ x ∈ calculateSortOrder folders assign notes,
      x.folderId = noteFolderId assign x.note.noteId ∧
      x.folderOrder = folderOrderOfId folders x.folderId ∧
      x.originalIndex = getOriginalIndex x.note) ∧
    (∀ nid : String, assign nid = none →
      folderOrderOfId folders (noteFolderId assign nid)
        = uncategorizedOrder folders) ∧
    (∀ nid fid : String, assign nid = some fid →
      (∀ f ∈ folders, f.id ≠ fid) →
      folderOrderOfId folders (noteFolderId assign nid)
        = uncategorizedOrder folders) ∧
    ((∀ f ∈ folders, f.id ≠ UNCATEGORIZED_FOLDER_ID) →
      uncategorizedOrder folders = ⊤) ∧
    (∀ f ∈ folders,
      folderOrderOfId folders f.id = (f.order : WithTop Nat)) ∧
    (∀ (i j : Nat)
        (hi : i < (calculateSortOrder folders assign notes).length)
        (hj : j < (calculateSortOrder folders assign notes).length),
      i < j →
      ((calculateSortOrder folders assign notes).get ⟨i, hi⟩).folderId
        = ((calculateSortOrder folders assign notes).get ⟨j, hj⟩).folderId →
      ((calculateSortOrder folders assign notes).get ⟨i, hi⟩).originalIndex
        ≤ ((calculateSortOrder folders assign notes).get
            ⟨j, hj⟩).originalIndex) := by
  have hperm : (calculateSortOrder folders assign notes).Perm
      (notes.map (attachSortInfo folders assign)) :=
    sortLe_perm sortCmpLe (notes.map (attachSortInfo folders assign))
  have h2 : (calculateSortOrder folders assign notes).Pairwise (fun a b =>
      a.folderOrder < b.folderOrder ∨
        (a.folderOrder = b.folderOrder ∧
          a.originalIndex ≤ b.originalIndex)) := by
    have hp := sortLe_pairwise sortCmpLe sortCmpLe_total
      (fun a b c => sortCmpLe_trans a b c)
      (notes.map (attachSortInfo folders assign))
    exact hp.imp (fun hx => (sortCmpLe_eq_true_iff _ _).mp hx)
  have h3 : ∀ x ∈ calculateSortOrder folders assign notes,
      x.folderId = noteFolderId assign x.note.noteId ∧
      x.folderOrder = folderOrderOfId folders x.folderId ∧
      x.originalIndex = getOriginalIndex x.note := by
    intro x hx
    have hx' : x ∈ notes.map (attachSortInfo folders assign) :=
      hperm.mem_iff.mp hx
    obtain ⟨n, _, rfl⟩ := List.mem_map.mp hx'
    exact ⟨rfl, rfl, rfl⟩
  refine ⟨?_, h2, h3, ?_, ?_, ?_, ?_, ?_⟩
  · have hmap : ((notes.map (attachSortInfo folders assign)).map
        (fun x => x.note)) = notes := by
      rw [List.map_map]
      have hcomp : ((fun x : SortedNote => x.note)
          ∘ attachSortInfo folders assign) = id := by
        funext n
        rfl
      rw [hcomp, List.map_id]
    have hres := hperm.map (fun x => x.note)
    rw [hmap] at hres
    exact hres
  · intro nid h
    have hfid : noteFolderId assign nid = UNCATEGORIZED_FOLDER_ID := by
      simp [noteFolderId, h]
    rw [hfid, folderOrderOfId_uncat]
  · intro nid fid h hnot
    have hfid : noteFolderId assign nid = fid := by
      simp [noteFolderId, h]
    rw [hfid]
    unfold folderOrderOfId
    rw [folderOrderMap_aGet_eq_none folders fid hnot]
  · intro h
    unfold uncategorizedOrder
    rw [folderOrderMap_aGet_eq_none folders UNCATEGORIZED_FOLDER_ID h]
  · intro f hf
    obtain ⟨idx, hget⟩ := List.mem_iff_get.mp hf
    have hmem : (idx.1, f) ∈ folders.enum := by
      rw [List.mem_enum_iff_getElem?, ← hget]
      simp [List.get_eq_getElem, List.getElem?_eq_getElem idx.2]
    have horder : f.order = idx.1 := by
      simpa using hords _ hmem
    have hag : aGet (folderOrderMap folders) f.id = some idx.1 := by
      rw [← hget]
      exact folderOrderMap_aGet_of_nodup folders hids idx
    unfold folderOrderOfId
    rw [hag, horder]
  · intro i j hi hj hij hfid
    have hR := List.pairwise_iff_get.mp h2 ⟨i, hi⟩ ⟨j, hj⟩ hij
    rcases hR with hlt | ⟨_, hle⟩
    · exfalso
      have hmi := h3 _ (List.get_mem (calculateSortOrder folders assign notes)
        i hi)
      have hmj := h3 _ (List.get_mem (calculateSortOrder folders assign notes)
        j hj)
      rw [hmi.2.1, hmj.2.1, hfid] at hlt
      exact lt_irrefl _ hlt
    · exact hle

/-- Witness for C3 at a concrete store: the default folder and one user
folder, two notes of which one is assigned and one is not. -/
theorem calculateSortOrder_spec_witness :
    ((calculateSortOrder
        [⟨"__uncategorized__", "uncategorized", 0, true⟩,
          ⟨"f1", "A", 1, false⟩]
        (fun n => if n = "n1" then some "f1" else none)
        [⟨"n0", some 0⟩, ⟨"n1", some 1⟩]).map (·.note)).Perm
      [⟨"n0", some 0⟩, ⟨"n1", some 1⟩] ∧
    (calculateSortOrder
        [⟨"__uncategorized__", "uncategorized", 0, true⟩,
          ⟨"f1", "A", 1, false⟩]
        (fun n => if n = "n1" then some "f1" else none)
        [⟨"n0", some 0⟩, ⟨"n1", some 1⟩]).Pairwise (fun a b =>
      a.folderOrder < b.folderOrder ∨
        (a.folderOrder = b.folderOrder ∧
          a.originalIndex ≤ b.originalIndex)) ∧
    folderOrderOfId
        [⟨"__uncategorized__", "uncategorized", 0, true⟩,
          ⟨"f1", "A", 1, false⟩]
        (noteFolderId (fun n => if n = "n1" then some "f1" else none) "n0")
      = uncategorizedOrder
        [⟨"__uncategorized__", "uncategorized", 0, true⟩,
          ⟨"f1", "A", 1, false⟩] ∧
    folderOrderOfId
        [⟨"__uncategorized__", "uncategorized", 0, true⟩,
          ⟨"f1", "A", 1, false⟩] "f1"
      = ((1 : Nat) : WithTop Nat) :=
  ⟨(calculateSortOrder_spec _ _ _ (by decide) (by decide)).1,
   (calculateSortOrder_spec _ _ _ (by decide) (by decide)).2.1,
   (calculateSortOrder_spec
      [⟨"__uncategorized__", "uncategorized", 0, true⟩,
        ⟨"f1", "A", 1, false⟩]
      (fun n => if n = "n1" then some "f1" else none)
      [⟨"n0", some 0⟩, ⟨"n1", some 1⟩]
      (by decide) (by decide)).2.2.2.1 "n0" (by decide),
   (calculateSortOrder_spec
      [⟨"__uncategorized__", "uncategorized", 0, true⟩,
        ⟨"f1", "A", 1, false⟩]
      (fun n => if n = "n1" then some "f1" else none)
      [⟨"n0", some 0⟩, ⟨"n1", some 1⟩]
      (by decide) (by decide)).2.2.2.2.2.2.1
      ⟨"f1", "A", 1, false⟩ (by decide)⟩

/-! ## Claim C7: clearing the sort/group projection -/

theorem mem_cardsOf (l : List ContainerNode) (d : ViewCard) :
    d ∈ cardsOf l ↔ ContainerNode.card d ∈ l := by
  unfold cardsOf
  rw [List.mem_filterMap]
  constructor
  · rintro ⟨n, hn, hf⟩
    cases n with
    | card c =>
      simp only [Option.some.injEq] at hf
      exact hf ▸ hn
    | groupHeader f => exact Option.noConfusion hf
  · intro h
    exact ⟨ContainerNode.card d, h, rfl⟩

theorem mem_sortedCardsOf (l : List ContainerNode) (d : ViewCard) :
    d ∈ sortedCardsOf l ↔
      (ContainerNode.card d ∈ l ∧ d.sorted = true) := by
  unfold sortedCardsOf
  rw [List.mem_filterMap]
  constructor
  · rintro ⟨n, hn, hf⟩
    cases n with
    | card c =>
      dsimp only at hf
      by_cases hs : c.sorted = true
      · rw [if_pos hs] at hf
        simp only [Option.some.injEq] at hf
        exact ⟨hf ▸ hn, hf ▸ hs⟩
      · rw [if_neg hs] at hf
        exact Option.noConfusion hf
    | groupHeader f => exact Option.noConfusion hf
  · rintro ⟨hmem, hs⟩
    refine ⟨ContainerNode.card d, hmem, ?_⟩
    dsimp only
    rw [if_pos hs]

theorem cardsOf_append (l1 l2 : List ContainerNode) :
    cardsOf (l1 ++ l2) = cardsOf l1 ++ cardsOf l2 := by
  unfold cardsOf
  exact List.filterMap_append l1 l2 _

theorem cardsOf_map_card (l : List ViewCard) :
    cardsOf (l.map ContainerNode.card) = l := by
  induction l with
  | nil => rfl
  | cons c rest ih =>
    simp only [List.map_cons, cardsOf, List.filterMap_cons] at ih ⊢
    rw [ih]

theorem cardsOf_filter_not_header (l : List ContainerNode) :
    cardsOf (l.filter (fun n => !(isGroupHeader n))) = cardsOf l := by
  induction l with
  | nil => rfl
  | cons n rest ih =>
    cases n with
    | groupHeader f =>
      rw [List.filter_cons_of_neg (by simp [isGroupHeader])]
      exact ih
    | card c =>
      rw [List.filter_cons_of_pos (by simp [isGroupHeader])]
      have h1 : cardsOf (ContainerNode.card c
          :: (rest.filter (fun n => !(isGroupHeader n))))
          = c :: cardsOf (rest.filter (fun n => !(isGroupHeader n))) := rfl
      have h2 : cardsOf (ContainerNode.card c :: rest) = c :: cardsOf rest :=
        rfl
      rw [h1, h2, ih]

theorem cardsOf_map_clearGrouped (l : List ContainerNode) :
    cardsOf (l.map clearGroupedClass)
      = (cardsOf l).map (fun c => { c with grouped := false }) := by
  induction l with
  | nil => rfl
  | cons n rest ih =>
    cases n with
    | groupHeader f =>
      simp only [List.map_cons, clearGroupedClass, cardsOf,
        List.filterMap_cons] at ih ⊢
      exact ih
    | card c =>
      simp only [List.map_cons, clearGroupedClass, cardsOf,
        List.filterMap_cons, List.map_cons] at ih ⊢
      rw [ih]

theorem cardsOf_map_resetIfSorted (l : List ContainerNode) :
    cardsOf (l.map resetIfSortedNode)
      = (cardsOf l).map
          (fun c => if c.sorted then resetSortMarks c else c) := by
  induction l with
  | nil => rfl
  | cons n rest ih =>
    cases n with
    | groupHeader f =>
      rw [List.map_cons]
      have h0 : resetIfSortedNode (ContainerNode.groupHeader f)
          = ContainerNode.groupHeader f := rfl
      rw [h0]
      exact ih
    | card c =>
      rw [List.map_cons]
      by_cases hs : c.sorted = true
      · have hnode : resetIfSortedNode (ContainerNode.card c)
            = ContainerNode.card (resetSortMarks c) := by
          simp [resetIfSortedNode, hs]
        rw [hnode]
        have h1 : cardsOf (ContainerNode.card (resetSortMarks c)
            :: rest.map resetIfSortedNode)
            = resetSortMarks c :: cardsOf (rest.map resetIfSortedNode) := rfl
        have h2 : cardsOf (ContainerNode.card c :: rest) = c :: cardsOf rest :=
          rfl
        rw [h1, h2, ih, List.map_cons, if_pos hs]
      · have hnode : resetIfSortedNode (ContainerNode.card c)
            = ContainerNode.card c := by
          simp [resetIfSortedNode, hs]
        rw [hnode]
        have h1 : cardsOf (ContainerNode.card c
            :: rest.map resetIfSortedNode)
            = c :: cardsOf (rest.map resetIfSortedNode) := rfl
        have h2 : cardsOf (ContainerNode.card c :: rest) = c :: cardsOf rest :=
          rfl
        rw [h1, h2, ih, List.map_cons, if_neg hs]

theorem sortedCardsOf_eq_filter (l : List ContainerNode) :
    sortedCardsOf l = (cardsOf l).filter (fun c => c.sorted) := by
  induction l with
  | nil => rfl
  | cons n rest ih =>
    cases n with
    | groupHeader f =>
      simp only [sortedCardsOf, cardsOf, List.filterMap_cons] at ih ⊢
      exact ih
    | card c =>
      by_cases hs : c.sorted = true
      · simp only [sortedCardsOf, cardsOf, List.filterMap_cons,
          if_pos hs] at ih ⊢
        rw [List.filter_cons_of_pos hs]
        rw [ih]
      · simp only [sortedCardsOf, cardsOf, List.filterMap_cons,
          if_neg hs] at ih ⊢
        rw [List.filter_cons_of_neg (by simpa using hs)]
        exact ih

theorem cardsOf_filter_unmoved_sorted (l : List ContainerNode) :
    cardsOf (l.filter (fun n => !(isGroupHeader n) && !(isSortedCard n)))
      = (cardsOf l).filter (fun c => !c.sorted) := by
  induction l with
  | nil => rfl
  | cons n rest ih =>
    cases n with
    | groupHeader f =>
      rw [List.filter_cons_of_neg (by simp [isGroupHeader])]
      exact ih
    | card c =>
      by_cases hs : c.sorted = true
      · rw [List.filter_cons_of_neg
          (by simp [isGroupHeader, isSortedCard, hs])]
        have h2 : cardsOf (ContainerNode.card c :: rest) = c :: cardsOf rest :=
          rfl
        rw [h2, List.filter_cons_of_neg (by simp [hs])]
        exact ih
      · have hs' : c.sorted = false := by
          cases h : c.sorted
          · rfl
          · exact absurd h hs
        rw [List.filter_cons_of_pos
          (by simp [isGroupHeader, isSortedCard, hs'])]
        have h1 : cardsOf (ContainerNode.card c
            :: (rest.filter
              (fun n => !(isGroupHeader n) && !(isSortedCard n))))
            = c :: cardsOf (rest.filter
              (fun n => !(isGroupHeader n) && !(isSortedCard n))) := rfl
        have h2 : cardsOf (ContainerNode.card c :: rest) = c :: cardsOf rest :=
          rfl
        rw [h1, h2, List.filter_cons_of_pos (by simp [hs']), ih]

theorem clearGroupHeaders_no_header (l : List ContainerNode) :
    ∀ n ∈ clearGroupHeaders l, isGroupHeader n = false := by
  intro n hn
  unfold clearGroupHeaders at hn
  obtain ⟨m, hm, rfl⟩ := List.mem_map.mp hn
  have hf := List.of_mem_filter hm
  cases m with
  | groupHeader f => simp [isGroupHeader] at hf
  | card c => rfl

theorem isGroupHeader_resetIfSortedNode (n : ContainerNode) :
    isGroupHeader (resetIfSortedNode n) = isGroupHeader n := by
  cases n with
  | groupHeader f => rfl
  | card c =>
    cases hs : c.sorted <;> simp [resetIfSortedNode, isGroupHeader, hs]

theorem sortedCardsOf_clearGroupHeaders (l : List ContainerNode) :
    sortedCardsOf (clearGroupHeaders l)
      = (sortedCardsOf l).map (fun c => { c with grouped := false }) := by
  rw [sortedCardsOf_eq_filter]
  unfold clearGroupHeaders
  rw [cardsOf_map_clearGrouped, cardsOf_filter_not_header, List.filter_map]
  rw [sortedCardsOf_eq_filter]
  congr 1

theorem restoreCmpLe_total (a b : ViewCard) :
    restoreCmpLe a b = true ∨ restoreCmpLe b a = true := by
  unfold restoreCmpLe
  rcases le_total (cardOriginalIndex a) (cardOriginalIndex b) with h | h
  · exact Or.inl (by simpa using h)
  · exact Or.inr (by simpa using h)

theorem restoreCmpLe_trans (a b c : ViewCard)
    (hab : restoreCmpLe a b = true) (hbc : restoreCmpLe b c = true) :
    restoreCmpLe a c = true := by
  unfold restoreCmpLe at hab hbc ⊢
  simp only [decide_eq_true_eq] at hab hbc ⊢
  exact hab.trans hbc

theorem clearSortState_of_empty (container : List ContainerNode)
    (hE : (sortedCardsOf container).isEmpty = true) :
    clearSortState container = container := by
  unfold clearSortState
  simp only [hE, if_true]

theorem clearSortState_of_noIdx (container : List ContainerNode)
    (hE : (sortedCardsOf container).isEmpty = false)
    (hidx : ((sortedCardsOf container).map resetSortMarks).any
      (fun c => !(decide (c.originalIndexAttr = none))) = false) :
    clearSortState container = container.map resetIfSortedNode := by
  unfold clearSortState
  simp only [hE, hidx, Bool.false_eq_true, if_false]

theorem clearSortState_of_withIdx (container : List ContainerNode)
    (hE : (sortedCardsOf container).isEmpty = false)
    (hidx : ((sortedCardsOf container).map resetSortMarks).any
      (fun c => !(decide (c.originalIndexAttr = none))) = true) :
    clearSortState container
      = (container.map resetIfSortedNode).filter
          (keepUnmoved ((sortedCardsOf container).map (·.cid)))
        ++ (sortLe restoreCmpLe
            ((sortedCardsOf container).map resetSortMarks)).map
            ContainerNode.card := by
  unfold clearSortState
  simp only [hE, hidx, Bool.false_eq_true, if_false, if_true]

theorem clearGroupHeaders_cons_header (f : String)
    (rest : List ContainerNode) :
    clearGroupHeaders (ContainerNode.groupHeader f :: rest)
      = clearGroupHeaders rest := by
  unfold clearGroupHeaders
  rw [List.filter_cons_of_neg (by simp [isGroupHeader])]

theorem clearGroupHeaders_cons_card (c : ViewCard)
    (rest : List ContainerNode) :
    clearGroupHeaders (ContainerNode.card c :: rest)
      = ContainerNode.card { c with grouped := false }
        :: clearGroupHeaders rest := by
  unfold clearGroupHeaders
  rw [List.filter_cons_of_pos (by simp [isGroupHeader]), List.map_cons]
  rfl

theorem cids_cardsOf_clearGroupHeaders (container : List ContainerNode) :
    (cardsOf (clearGroupHeaders container)).map (·.cid)
      = (cardsOf container).map (·.cid) := by
  unfold clearGroupHeaders
  rw [cardsOf_map_clearGrouped, cardsOf_filter_not_header, List.map_map]
  rfl

theorem movedCids_eq (container : List ContainerNode) :
    (sortedCardsOf (clearGroupHeaders container)).map (·.cid)
      = (sortedCardsOf container).map (·.cid) := by
  rw [sortedCardsOf_clearGroupHeaders, List.map_map]
  rfl

theorem anyIdx_clearGroupHeaders (container : List ContainerNode) :
    ((sortedCardsOf (clearGroupHeaders container)).map resetSortMarks).any
        (fun c => !(decide (c.originalIndexAttr = none)))
      = (sortedCardsOf container).any
        (fun c => !(decide (c.originalIndexAttr = none))) := by
  rw [sortedCardsOf_clearGroupHeaders, List.any_map, List.any_map]
  rfl

theorem contains_movedCids_eq_sorted (container : List ContainerNode)
    (hnodup : ((cardsOf container).map (·.cid)).Nodup)
    (c : ViewCard) (hc : ContainerNode.card c ∈ container) :
    ((sortedCardsOf container).map (·.cid)).contains c.cid = c.sorted := by
  by_cases hs : c.sorted = true
  · rw [hs]
    have hmemS : c ∈ sortedCardsOf container :=
      (mem_sortedCardsOf _ _).mpr ⟨hc, hs⟩
    have hm : c.cid ∈ (sortedCardsOf container).map (·.cid) :=
      List.mem_map_of_mem _ hmemS
    simpa using hm
  · have hs' : c.sorted = false := by
      cases h : c.sorted
      · rfl
      · exact absurd h hs
    rw [hs']
    have hnot : c.cid ∉ (sortedCardsOf container).map (·.cid) := by
      intro hmem
      obtain ⟨d, hd, hdc⟩ := List.mem_map.mp hmem
      obtain ⟨hdmem, hds⟩ := (mem_sortedCardsOf _ _).mp hd
      have hceq : d = c := List.inj_on_of_nodup_map hnodup
        ((mem_cardsOf _ _).mpr hdmem) ((mem_cardsOf _ _).mpr hc) hdc
      rw [hceq] at hds
      rw [hds] at hs'
      exact Bool.noConfusion hs'
    simp [hnot]

theorem prefix_char_aux (moved : List Nat) (l : List ContainerNode)
    (hmoved : ∀ c : ViewCard, ContainerNode.card c ∈ l →
      moved.contains c.cid = c.sorted) :
    ((clearGroupHeaders l).map resetIfSortedNode).filter (keepUnmoved moved)
      = (l.filter (fun n =>
          !(isGroupHeader n) && !(isSortedCard n))).map clearGroupedClass := by
  induction l with
  | nil => rfl
  | cons n rest ih =>
    have hrest : ∀ c : ViewCard, ContainerNode.card c ∈ rest →
        moved.contains c.cid = c.sorted :=
      fun c hc => hmoved c (List.mem_cons_of_mem _ hc)
    cases n with
    | groupHeader f =>
      rw [clearGroupHeaders_cons_header]
      rw [List.filter_cons_of_neg (by simp [isGroupHeader])]
      exact ih hrest
    | card c =>
      rw [clearGroupHeaders_cons_card, List.map_cons]
      have hcid : moved.contains c.cid = c.sorted :=
        hmoved c (List.mem_cons_self _ _)
      by_cases hs : c.sorted = true
      · have hnode : resetIfSortedNode
            (ContainerNode.card { c with grouped := false })
            = ContainerNode.card (resetSortMarks { c with grouped := false }) := by
          simp [resetIfSortedNode, hs]
        rw [hnode]
        have hk : keepUnmoved moved
            (ContainerNode.card (resetSortMarks { c with grouped := false }))
            = false := by
          show (!(moved.contains c.cid)) = false
          rw [hcid, hs]
          rfl
        rw [List.filter_cons_of_neg (by simp [hk])]
        rw [List.filter_cons_of_neg
          (by simp [isGroupHeader, isSortedCard, hs])]
        exact ih hrest
      · have hs' : c.sorted = false := by
          cases h : c.sorted
          · rfl
          · exact absurd h hs
        have hnode : resetIfSortedNode
            (ContainerNode.card { c with grouped := false })
            = ContainerNode.card { c with grouped := false } := by
          simp [resetIfSortedNode, hs']
        rw [hnode]
        have hk : keepUnmoved moved
            (ContainerNode.card { c with grouped := false }) = true := by
          show (!(moved.contains c.cid)) = true
          rw [hcid, hs']
          rfl
        rw [List.filter_cons_of_pos hk]
        rw [List.filter_cons_of_pos
          (by simp [isGroupHeader, isSortedCard, hs'])]
        rw [List.map_cons, ih hrest]
        rfl

/-- C7: from any container state in which a Sort or Group projection had
been applied (markers only on sorted-tagged cards, distinct nodes),
`_clearViewModeState` removes every group-header pseudo-node and every
order marker (inline CSS order, order attribute, sorted and grouped
classes), keeps exactly the same card nodes, and — whenever any of the
previously sorted cards carries a recorded original index — produces the
container with the unmoved nodes in their original relative order
followed by one batch-appended block holding the formerly sorted cards
in ascending `originalIndex` order. -/
theorem clearViewModeState_spec (container : List ContainerNode)
    (hnodup : ((cardsOf container).map (·.cid)).Nodup)
    (hmarks : ∀ c : ViewCard, ContainerNode.card c ∈ container →
      (c.styleOrder ≠ none ∨ c.orderAttr ≠ none) → c.sorted = true) :
    (∀ n ∈ clearViewModeState container, isGroupHeader n = false) ∧
    (∀ c : ViewCard, ContainerNode.card c ∈ clearViewModeState container →
      c.sorted = false ∧ c.grouped = false ∧ c.styleOrder = none ∧
        c.orderAttr = none) ∧
    ((cardsOf (clearViewModeState container)).map (·.cid)).Perm
      ((cardsOf container).map (·.cid)) ∧
    ((sortedCardsOf container).any
        (fun c => !(decide (c.originalIndexAttr = none))) = true →
      ∃ suf : List ViewCard,
        clearViewModeState container
          = (container.filter (fun n =>
              !(isGroupHeader n) && !(isSortedCard n))).map clearGroupedClass
            ++ suf.map ContainerNode.card ∧
        (suf.map (·.cid)).Perm ((sortedCardsOf container).map (·.cid)) ∧
        suf.Pairwise
          (fun a b => cardOriginalIndex a ≤ cardOriginalIndex b)) := by
  have hunmarked : ∀ c : ViewCard, ContainerNode.card c ∈ container →
      c.sorted = false → c.styleOrder = none ∧ c.orderAttr = none := by
    intro c hcm hcs
    by_contra hcon
    have hdisj : c.styleOrder ≠ none ∨ c.orderAttr ≠ none := by
      rcases not_and_or.mp hcon with h | h
      · exact Or.inl h
      · exact Or.inr h
    have hsor := hmarks c hcm hdisj
    rw [hcs] at hsor
    exact Bool.noConfusion hsor
  have hAcards : cardsOf (clearGroupHeaders container)
      = (cardsOf container).map (fun c => { c with grouped := false }) := by
    unfold clearGroupHeaders
    rw [cardsOf_map_clearGrouped, cardsOf_filter_not_header]
  have hAcardMem : ∀ c : ViewCard,
      ContainerNode.card c ∈ clearGroupHeaders container →
      ∃ e : ViewCard, ContainerNode.card e ∈ container ∧
        c = { e with grouped := false } := by
    intro c hc
    have hm : c ∈ cardsOf (clearGroupHeaders container) :=
      (mem_cardsOf _ _).mpr hc
    rw [hAcards] at hm
    obtain ⟨e, he, hee⟩ := List.mem_map.mp hm
    exact ⟨e, (mem_cardsOf _ _).mp he, hee.symm⟩
  by_cases hE : (sortedCardsOf (clearGroupHeaders container)).isEmpty = true
  · have hout : clearViewModeState container = clearGroupHeaders container := by
      show clearSortState (clearGroupHeaders container) = _
      exact clearSortState_of_empty _ hE
    have hAe : sortedCardsOf (clearGroupHeaders container) = [] :=
      List.isEmpty_iff.mp hE
    have hCe : sortedCardsOf container = [] := by
      have hmapnil := sortedCardsOf_clearGroupHeaders container
      rw [hAe] at hmapnil
      exact List.map_eq_nil_iff.mp hmapnil.symm
    have hnosort : ∀ c : ViewCard, ContainerNode.card c ∈ container →
        c.sorted = false := by
      intro c hc
      by_cases h : c.sorted = true
      · exfalso
        have hmemS : c ∈ sortedCardsOf container :=
          (mem_sortedCardsOf _ _).mpr ⟨hc, h⟩
        rw [hCe] at hmemS
        exact List.not_mem_nil _ hmemS
      · cases hcs : c.sorted
        · rfl
        · exact absurd hcs h
    refine ⟨?_, ?_, ?_, ?_⟩
    · rw [hout]
      exact clearGroupHeaders_no_header container
    · rw [hout]
      intro c hc
      obtain ⟨e, hem, rfl⟩ := hAcardMem c hc
      have hes := hnosort e hem
      have hm := hunmarked e hem hes
      exact ⟨hes, rfl, hm.1, hm.2⟩
    · rw [hout, cids_cardsOf_clearGroupHeaders]
    · intro hidxC
      exfalso
      rw [hCe] at hidxC
      exact absurd hidxC (by decide)
  · have hE' : (sortedCardsOf (clearGroupHeaders container)).isEmpty
        = false := by
      cases h : (sortedCardsOf (clearGroupHeaders container)).isEmpty
      · rfl
      · exact absurd h hE
    by_cases hidx : ((sortedCardsOf (clearGroupHeaders container)).map
        resetSortMarks).any
        (fun c => !(decide (c.originalIndexAttr = none))) = true
    · -- sorted cards exist and at least one has a recorded index
      have hout : clearViewModeState container
          = ((clearGroupHeaders container).map resetIfSortedNode).filter
              (keepUnmoved
                ((sortedCardsOf (clearGroupHeaders container)).map (·.cid)))
            ++ (sortLe restoreCmpLe
                ((sortedCardsOf (clearGroupHeaders container)).map
                  resetSortMarks)).map ContainerNode.card := by
        show clearSortState (clearGroupHeaders container) = _
        exact clearSortState_of_withIdx _ hE' hidx
      have hprefix : ((clearGroupHeaders container).map
            resetIfSortedNode).filter
            (keepUnmoved
              ((sortedCardsOf (clearGroupHeaders container)).map (·.cid)))
          = (container.filter (fun n =>
              !(isGroupHeader n) && !(isSortedCard n))).map
              clearGroupedClass := by
        refine prefix_char_aux _ container ?_
        intro c hc
        rw [movedCids_eq container]
        exact contains_movedCids_eq_sorted container hnodup c hc
      have hsufCids : ((sortedCardsOf (clearGroupHeaders container)).map
            resetSortMarks).map (·.cid)
          = (sortedCardsOf container).map (·.cid) := by
        rw [List.map_map]
        have hcomp : (sortedCardsOf (clearGroupHeaders container)).map
            ((·.cid) ∘ resetSortMarks)
            = (sortedCardsOf (clearGroupHeaders container)).map (·.cid) := rfl
        rw [hcomp, movedCids_eq]
      have hsufPerm : ((sortLe restoreCmpLe
            ((sortedCardsOf (clearGroupHeaders container)).map
              resetSortMarks)).map (·.cid)).Perm
          ((sortedCardsOf container).map (·.cid)) := by
        have hp := (sortLe_perm restoreCmpLe
          ((sortedCardsOf (clearGroupHeaders container)).map
            resetSortMarks)).map (·.cid)
        rw [hsufCids] at hp
        exact hp
      have hsufPairwise : (sortLe restoreCmpLe
            ((sortedCardsOf (clearGroupHeaders container)).map
              resetSortMarks)).Pairwise
          (fun a b => cardOriginalIndex a ≤ cardOriginalIndex b) := by
        have hp := sortLe_pairwise restoreCmpLe restoreCmpLe_total
          (fun a b c => restoreCmpLe_trans a b c)
          ((sortedCardsOf (clearGroupHeaders container)).map resetSortMarks)
        exact hp.imp (fun h => of_decide_eq_true h)
      have hsufCleared : ∀ c : ViewCard,
          c ∈ sortLe restoreCmpLe
            ((sortedCardsOf (clearGroupHeaders container)).map
              resetSortMarks) →
          c.sorted = false ∧ c.grouped = false ∧ c.styleOrder = none ∧
            c.orderAttr = none := by
        intro c hc
        have hmem : c ∈ (sortedCardsOf (clearGroupHeaders container)).map
            resetSortMarks :=
          (sortLe_perm restoreCmpLe _).mem_iff.mp hc
        obtain ⟨d, hd, rfl⟩ := List.mem_map.mp hmem
        have hdA : ContainerNode.card d ∈ clearGroupHeaders container :=
          ((mem_sortedCardsOf _ _).mp hd).1
        obtain ⟨e, _, rfl⟩ := hAcardMem d hdA
        exact ⟨rfl, rfl, rfl, rfl⟩
      refine ⟨?_, ?_, ?_, ?_⟩
      · rw [hout]
        intro n hn
        rcases List.mem_append.mp hn with hn | hn
        · have hn' := List.mem_of_mem_filter hn
          obtain ⟨m, hm, rfl⟩ := List.mem_map.mp hn'
          rw [isGroupHeader_resetIfSortedNode]
          exact clearGroupHeaders_no_header container m hm
        · obtain ⟨d, _, rfl⟩ := List.mem_map.mp hn
          rfl
      · rw [hout, hprefix]
        intro c hc
        rcases List.mem_append.mp hc with hc | hc
        · obtain ⟨m, hm, hmc⟩ := List.mem_map.mp hc
          obtain ⟨hmcont, hpred⟩ := List.mem_filter.mp hm
          cases m with
          | groupHeader f => exact ContainerNode.noConfusion hmc
          | card e =>
            have hce : c = { e with grouped := false } := by
              have : ContainerNode.card { e with grouped := false }
                  = ContainerNode.card c := hmc
              exact (ContainerNode.card.inj this).symm
            have hes : e.sorted = false := by
              have h2 := (Bool.and_eq_true _ _).mp hpred
              have h3 : (!(isSortedCard (ContainerNode.card e))) = true := h2.2
              have h4 : isSortedCard (ContainerNode.card e) = false := by
                cases h : isSortedCard (ContainerNode.card e)
                · rfl
                · rw [h] at h3
                  exact Bool.noConfusion h3
              exact h4
            have hm2 := hunmarked e hmcont hes
            rw [hce]
            exact ⟨hes, rfl, hm2.1, hm2.2⟩
        · obtain ⟨d, hd, hdc⟩ := List.mem_map.mp hc
          have hdc' : d = c := ContainerNode.card.inj hdc
          exact hdc' ▸ hsufCleared d hd
      · rw [hout, hprefix, cardsOf_append, cardsOf_map_card,
          cardsOf_map_clearGrouped, cardsOf_filter_unmoved_sorted,
          List.map_append, List.map_map]
        have hcomp : ((cardsOf container).filter
              (fun c => !c.sorted)).map
              ((·.cid) ∘ (fun c => { c with grouped := false }))
            = ((cardsOf container).filter (fun c => !c.sorted)).map (·.cid) :=
          rfl
        rw [hcomp]
        have hsplit := List.filter_append_perm
          (fun c : ViewCard => !c.sorted) (cardsOf container)
        have hbb : (cardsOf container).filter (fun c => !(!c.sorted))
            = (cardsOf container).filter (fun c => c.sorted) :=
          List.filter_congr (fun x _ => by simp)
        rw [hbb] at hsplit
        have hsplit2 := hsplit.map (·.cid)
        rw [List.map_append] at hsplit2
        have hsuf2 : ((sortLe restoreCmpLe
              ((sortedCardsOf (clearGroupHeaders container)).map
                resetSortMarks)).map (·.cid)).Perm
            (((cardsOf container).filter (fun c => c.sorted)).map (·.cid)) := by
          have hperm2 := hsufPerm
          rw [sortedCardsOf_eq_filter container] at hperm2
          exact hperm2
        exact (List.Perm.append_left _ hsuf2).trans hsplit2
      · intro _
        refine ⟨sortLe restoreCmpLe
          ((sortedCardsOf (clearGroupHeaders container)).map resetSortMarks),
          ?_, hsufPerm, hsufPairwise⟩
        rw [hout, hprefix]
    · -- sorted cards exist but none has a recorded index
      have hidx' : ((sortedCardsOf (clearGroupHeaders container)).map
          resetSortMarks).any
          (fun c => !(decide (c.originalIndexAttr = none))) = false := by
        cases h : ((sortedCardsOf (clearGroupHeaders container)).map
            resetSortMarks).any
            (fun c => !(decide (c.originalIndexAttr = none)))
        · rfl
        · exact absurd h hidx
      have hout : clearViewModeState container
          = (clearGroupHeaders container).map resetIfSortedNode := by
        show clearSortState (clearGroupHeaders container) = _
        exact clearSortState_of_noIdx _ hE' hidx'
      refine ⟨?_, ?_, ?_, ?_⟩
      · rw [hout]
        intro n hn
        obtain ⟨m, hm, rfl⟩ := List.mem_map.mp hn
        rw [isGroupHeader_resetIfSortedNode]
        exact clearGroupHeaders_no_header container m hm
      · rw [hout]
        intro c hc
        have hm : c ∈ cardsOf
            ((clearGroupHeaders container).map resetIfSortedNode) :=
          (mem_cardsOf _ _).mpr hc
        rw [cardsOf_map_resetIfSorted] at hm
        obtain ⟨d, hd, rfl⟩ := List.mem_map.mp hm
        have hdA : ContainerNode.card d ∈ clearGroupHeaders container :=
          (mem_cardsOf _ _).mp hd
        obtain ⟨e, hem, rfl⟩ := hAcardMem d hdA
        by_cases hds : e.sorted = true
        · rw [if_pos hds]
          exact ⟨rfl, rfl, rfl, rfl⟩
        · have hes : e.sorted = false := by
            cases h : e.sorted
            · rfl
            · exact absurd h hds
          rw [if_neg (by simpa using hds)]
          have hm2 := hunmarked e hem hes
          exact ⟨hes, rfl, hm2.1, hm2.2⟩
      · rw [hout]
        have h1 : (cardsOf ((clearGroupHeaders container).map
              resetIfSortedNode)).map (·.cid)
            = (cardsOf (clearGroupHeaders container)).map (·.cid) := by
          rw [cardsOf_map_resetIfSorted, List.map_map]
          apply List.map_congr_left
          intro c _
          by_cases hs : c.sorted = true
          · show (if c.sorted = true then resetSortMarks c else c).cid = c.cid
            rw [if_pos hs]
            rfl
          · show (if c.sorted = true then resetSortMarks c else c).cid = c.cid
            rw [if_neg hs]
        rw [h1, cids_cardsOf_clearGroupHeaders]
      · intro hidxC
        exfalso
        have hEq := anyIdx_clearGroupHeaders container
        rw [hidx', hidxC] at hEq
        exact absurd hEq (by decide)

/-- Witness for C7 on `sampleContainer`: the node multiset is preserved
and the cleared container is the unmoved prefix followed by the restored
block in ascending original-index order. -/
theorem clearViewModeState_spec_witness :
    ((cardsOf (clearViewModeState sampleContainer)).map (·.cid)).Perm
      ((cardsOf sampleContainer).map (·.cid)) ∧
    (∃ suf : List ViewCard,
      clearViewModeState sampleContainer
        = (sampleContainer.filter (fun n =>
            !(isGroupHeader n) && !(isSortedCard n))).map clearGroupedClass
          ++ suf.map ContainerNode.card ∧
      (suf.map (·.cid)).Perm
        ((sortedCardsOf sampleContainer).map (·.cid)) ∧
      suf.Pairwise
        (fun a b => cardOriginalIndex a ≤ cardOriginalIndex b)) :=
  ⟨(clearViewModeState_spec sampleContainer (by decide)
      (by
        intro c hc
        simp only [sampleContainer, List.mem_cons, List.not_mem_nil,
          or_false] at hc
        rcases hc with h | h | h | h
        · exact absurd h (by simp)
        · rw [ContainerNode.card.inj h]
          decide
        · rw [ContainerNode.card.inj h]
          decide
        · rw [ContainerNode.card.inj h]
          decide)).2.2.1,
   (clearViewModeState_spec sampleContainer (by decide)
      (by
        intro c hc
        simp only [sampleContainer, List.mem_cons, List.not_mem_nil,
          or_false] at hc
        rcases hc with h | h | h | h
        · exact absurd h (by simp)
        · rw [ContainerNode.card.inj h]
          decide
        · rw [ContainerNode.card.inj h]
          decide
        · rw [ContainerNode.card.inj h]
          decide)).2.2.2 (by decide)⟩

end FolderLM
